import Mathlib

/-!
Verification development for the exath-engine expression evaluator
(Rust sources under src/core/src).  The Rust code is shallowly embedded:

* the tokenizer (src/core/src/ast/tokenizer.rs) and the recursive-descent
  parser (src/core/src/ast/parser.rs) are embedded as executable functions
  over `List Char` / `List Token`; numeric literals are kept as exact
  decimal values `mant / 10 ^ scale` (a pair of naturals) instead of IEEE-754
  doubles, so the whole front end is computable and decidable.  The binary
  f64 rounding of decimal literals is not modelled; every literal appearing
  in the claims is exactly representable, so this is value-preserving there.
* the complex-number kernel (cx.rs), the built-in function table
  (functions.rs) and the AST evaluator (eval.rs) are embedded over the real
  numbers: an f64 is idealised as an exact real, with `Real.exp`, `Real.log`,
  `Real.sqrt`, `Real.sin`, ... standing for the f64 math routines.  IEEE
  rounding, overflow, underflow, NaN and the sign of zero are outside this
  idealisation; the one place a claim is specifically about the sign bit of
  zero (the `sign`/`sgn` built-in) gets a dedicated signed-zero model at the
  end of the file.
* Rust recursion (user-defined calls in the evaluator, and the recursive
  descent of the parser) is made total with an explicit recursion budget
  (`fuel`).  For the parser the budget is an internal detail: a sufficiency
  theorem shows the budget chosen by `parseTokens` is never exhausted, so
  the embedded parser is a total function of the token list, exactly like
  the source.  For the evaluator the budget is a genuine parameter (the
  source's user-function recursion is unbounded and can diverge); theorems
  quantify over it or instantiate it concretely.
* `i64` arithmetic in the numerical methods is modelled as `Int` with
  explicit two's-complement wrapping (`% 2 ^ 64`) where the source can
  overflow (release-profile Rust semantics).
* Rust `HashMap`s are modelled extensionally as functions into `Option`.
-/

namespace Exath

/-! ## Error taxonomy (src/core/src/error.rs) -/

/-- Category of error, mirroring `ErrorKind` in error.rs. -/
inductive ErrorKind where
  | parseError
  | undefinedName
  | argumentCount
  | argumentType
  | domainError
  | overflow
  | complexResult
  | rangeTooLarge
deriving DecidableEq, Repr

/-- An error value, mirroring `ExathError` (kind + human-readable message). -/
structure Err where
  kind : ErrorKind
  message : String
deriving DecidableEq, Repr

def Err.parse (msg : String) : Err := ⟨ErrorKind.parseError, msg⟩

def Err.undefined (msg : String) : Err := ⟨ErrorKind.undefinedName, msg⟩

def Err.argCount (msg : String) : Err := ⟨ErrorKind.argumentCount, msg⟩

def Err.argType (msg : String) : Err := ⟨ErrorKind.argumentType, msg⟩

def Err.domain (msg : String) : Err := ⟨ErrorKind.domainError, msg⟩

def Err.overflowErr (msg : String) : Err := ⟨ErrorKind.overflow, msg⟩

def Err.complexResult (msg : String) : Err := ⟨ErrorKind.complexResult, msg⟩

def Err.rangeTooLarge (msg : String) : Err := ⟨ErrorKind.rangeTooLarge, msg⟩

/-- Rust `Result<α, ExathError>`.  (`Except` is not used because the
development needs decidable equality of results.) -/
inductive XRes (α : Type) where
  | ok (a : α)
  | err (e : Err)
deriving DecidableEq, Repr

/-! ## Tokens (src/core/src/ast/tokenizer.rs) -/

/-- Exact value of a decimal numeric literal: `mant / 10 ^ scale`.
The source stores the already-parsed `f64`; keeping the decimal instead
makes tokens decidable.  All claim-relevant literals are small integers,
where the two representations denote the same value. -/
structure NumLit where
  mant : Nat
  scale : Nat
deriving DecidableEq, Repr

inductive Token where
  | number (value : NumLit)
  | ident (name : String)
  | plus
  | minus
  | mul
  | div
  | pow
  | mod
  | factorial
  | lparen
  | rparen
  | comma
  | eqEq
  | ne
  | lt
  | le
  | gt
  | ge
  | andAnd
  | orOr
deriving DecidableEq, Repr

/-! ## Tokenizer -/

/-- ASCII lowercasing of one character (`to_lowercase` in the source is full
Unicode; every identifier character the tokenizer accepts is ASCII or one of
three lowercase Greek letters, on which the two agree). -/
def lowerChar (c : Char) : Char :=
  if 'A' ≤ c ∧ c ≤ 'Z' then Char.ofNat (c.toNat + 32) else c

def asciiLower (s : List Char) : List Char := s.map lowerChar

/-- Characters skipped as whitespace by the main loop (space, tab and the
calculator marker characters U+2041, U+203E, U+208D, U+208E). -/
def isCalcWs (c : Char) : Bool :=
  c = ' ' || c = '\t' || c = Char.ofNat 0x2041 || c = Char.ofNat 0x203E ||
  c = Char.ofNat 0x208D || c = Char.ofNat 0x208E

def uMinus : Char := Char.ofNat 0x2212

def uTimes : Char := Char.ofNat 0x00D7

def uDivide : Char := Char.ofNat 0x00F7

def uPi : Char := Char.ofNat 0x3C0

def uPhi : Char := Char.ofNat 0x3D5

def uEps : Char := Char.ofNat 0x3B5

def uSqrt : Char := Char.ofNat 0x221A

def uSubL : Char := Char.ofNat 0x208D

def uSubR : Char := Char.ofNat 0x208E

def digitsToNat (cs : List Char) : Nat :=
  cs.foldl (fun a c => a * 10 + (c.toNat - '0'.toNat)) 0

/-- Value of a collected numeric string (digits and dots, starting with a
digit): mirrors `num_str.parse::<f64>()`, which succeeds exactly when there
is at most one dot. -/
def numVal (cs : List Char) : Option NumLit :=
  let intPart := cs.takeWhile Char.isDigit
  match cs.drop intPart.length with
  | [] => some ⟨digitsToNat intPart, 0⟩
  | '.' :: fr =>
      if fr.all Char.isDigit then
        some ⟨digitsToNat (intPart ++ fr), fr.length⟩
      else none
  | _ => none

/-- Token for one character inside a bar-delimited absolute value block
(`|expr|`): operators and single digits are kept, everything else is
silently skipped (`None`). -/
def barTok (c : Char) : Option Token :=
  if c = '+' then some Token.plus
  else if c = '-' || c = uMinus then some Token.minus
  else if c = '*' || c = uTimes then some Token.mul
  else if c = '/' || c = uDivide then some Token.div
  else if c = '^' then some Token.pow
  else if c = '(' then some Token.lparen
  else if c = ')' then some Token.rparen
  else if c.isDigit then some (Token.number ⟨c.toNat - '0'.toNat, 0⟩)
  else none

/-- Scanning inside a bar block: translate characters until the closing `|`
(or the end of input), mirroring the `depth` loop of tokenizer.rs lines
144-174 (the depth only ever decreases: bar blocks do not nest). -/
def absLoop : List Char → (List Token × List Char)
  | [] => ([], [])
  | c :: rest =>
      if c = '|' then ([], rest)
      else
        match barTok c with
        | some t => (t :: (absLoop rest).1, (absLoop rest).2)
        | none => absLoop rest

theorem absLoop_length_le : ∀ cs : List Char, (absLoop cs).2.length ≤ cs.length := by
  intro cs
  induction cs with
  | nil => simp [absLoop]
  | cons c rest ih =>
      by_cases hc : c = '|'
      · simp [absLoop, hc]
      · cases hb : barTok c with
        | some t =>
            simp only [absLoop, if_neg hc, hb]
            exact Nat.le_succ_of_le ih
        | none =>
            simp only [absLoop, if_neg hc, hb]
            exact Nat.le_succ_of_le ih

def consTok (t : Token) : XRes (List Token) → XRes (List Token)
  | XRes.ok ts => XRes.ok (t :: ts)
  | XRes.err e => XRes.err e

def consToks (pre : List Token) : XRes (List Token) → XRes (List Token)
  | XRes.ok ts => XRes.ok (pre ++ ts)
  | XRes.err e => XRes.err e



/-- Bar-delimited absolute value (tokenizer.rs lines 140-176): emit
`abs (`, the translated inner characters, then `)`. -/
def tokBar (pos : Nat) (rest : List Char) : XRes (List Token × Nat × List Char) :=
  XRes.ok (Token.ident ("abs") :: Token.lparen :: (absLoop rest).1 ++ [Token.rparen],
    pos + 1 + (rest.length - (absLoop rest).2.length), (absLoop rest).2)

/-- Leading decimal point (tokenizer.rs lines 179-197): `.5` style literal,
requiring at least one digit. -/
def tokDot (pos : Nat) (rest : List Char) : XRes (List Token × Nat × List Char) :=
  let fs := rest.takeWhile Char.isDigit
  if fs.isEmpty then
    XRes.err (Err.parse ("Unexpected token at position " ++ Nat.repr pos))
  else
    XRes.ok ([Token.number ⟨digitsToNat fs, fs.length⟩],
      pos + 1 + fs.length, rest.dropWhile Char.isDigit)

/-- Numeric literal starting with the digit `c` (tokenizer.rs lines 200-223):
a run of digits and dots, then optionally a comma acting as a decimal
separator when immediately followed by a digit. -/
def tokNum (pos : Nat) (c : Char) (rest : List Char) :
    XRes (List Token × Nat × List Char) :=
  let ds := c :: rest.takeWhile (fun ch => ch.isDigit || ch = '.')
  match rest.dropWhile (fun ch => ch.isDigit || ch = '.') with
  | ',' :: d :: rest2 =>
    if d.isDigit then
      let fs := (d :: rest2).takeWhile Char.isDigit
      match numVal (ds ++ '.' :: fs) with
      | some v =>
          XRes.ok ([Token.number v], pos + ds.length + 1 + fs.length,
            (d :: rest2).dropWhile Char.isDigit)
      | none => XRes.err (Err.parse ("Invalid number"))
    else
      match numVal ds with
      | some v => XRes.ok ([Token.number v], pos + ds.length, ',' :: d :: rest2)
      | none => XRes.err (Err.parse ("Invalid number"))
  | rest1 =>
    match numVal ds with
    | some v => XRes.ok ([Token.number v], pos + ds.length, rest1)
    | none => XRes.err (Err.parse ("Invalid number"))

/-- ASCII identifier starting with the letter `c` (tokenizer.rs lines
226-259), stored lowercased, with the `log₍base₎` subscript special case. -/
def tokIdentTok (pos : Nat) (c : Char) (rest : List Char) :
    XRes (List Token × Nat × List Char) :=
  let name := c :: rest.takeWhile (fun ch => ch.isAlphanum || ch = '_')
  let rest1 := rest.dropWhile (fun ch => ch.isAlphanum || ch = '_')
  let lower := (asciiLower name).asString
  if lower = "log" ∧ rest1.head? = some uSubL then
    let bs := (rest1.drop 1).takeWhile (fun ch => ch ≠ uSubR)
    let rest2 := (rest1.drop 1).dropWhile (fun ch => ch ≠ uSubR)
    if rest2.head? = some uSubR then
      XRes.ok ([Token.ident ("log:" ++ bs.asString)],
        pos + name.length + 1 + bs.length + 1, rest2.drop 1)
    else
      XRes.ok ([Token.ident ("log:" ++ bs.asString)],
        pos + name.length + 1 + bs.length, rest2)
  else
    XRes.ok ([Token.ident lower], pos + name.length, rest1)

/-- Class of a character for the tokenizer's main `match` (tokenizer.rs
lines 33-273), in source order. -/
inductive CClass where
  | ws
  | plusC
  | minusC
  | starC
  | slashC
  | caretC
  | lparC
  | rparC
  | commaC
  | percentC
  | bangC
  | eqC
  | ltC
  | gtC
  | ampC
  | barC
  | dotC
  | digitC
  | greekC
  | alphaC
  | sqrtC
  | otherC
deriving DecidableEq, Repr

def charClass (c : Char) : CClass :=
  if isCalcWs c then CClass.ws
  else if c = '+' then CClass.plusC
  else if c = '-' || c = uMinus then CClass.minusC
  else if c = '*' || c = uTimes then CClass.starC
  else if c = '/' || c = uDivide then CClass.slashC
  else if c = '^' then CClass.caretC
  else if c = '(' then CClass.lparC
  else if c = ')' then CClass.rparC
  else if c = ',' then CClass.commaC
  else if c = '%' then CClass.percentC
  else if c = '!' then CClass.bangC
  else if c = '=' then CClass.eqC
  else if c = '<' then CClass.ltC
  else if c = '>' then CClass.gtC
  else if c = '&' then CClass.ampC
  else if c = '|' then CClass.barC
  else if c = '.' then CClass.dotC
  else if c.isDigit then CClass.digitC
  else if c = uPi || c = uPhi || c = uEps then CClass.greekC
  else if c.isAlpha then CClass.alphaC
  else if c = uSqrt then CClass.sqrtC
  else CClass.otherC

/-- One iteration of the tokenizer's main `while` loop (tokenizer.rs lines
32-275), on a non-empty input `c :: rest`: returns the tokens emitted by the
iteration, the new character index, and the remaining characters.  The index
`pos` is only used in one error message. -/
def tokStep (pos : Nat) (c : Char) (rest : List Char) :
    XRes (List Token × Nat × List Char) :=
  match charClass c with
  | CClass.ws => XRes.ok ([], pos + 1, rest)
  | CClass.plusC => XRes.ok ([Token.plus], pos + 1, rest)
  | CClass.minusC => XRes.ok ([Token.minus], pos + 1, rest)
  | CClass.starC =>
    match rest with
    | '*' :: rest2 => XRes.ok ([Token.pow], pos + 2, rest2)
    | _ => XRes.ok ([Token.mul], pos + 1, rest)
  | CClass.slashC => XRes.ok ([Token.div], pos + 1, rest)
  | CClass.caretC => XRes.ok ([Token.pow], pos + 1, rest)
  | CClass.lparC => XRes.ok ([Token.lparen], pos + 1, rest)
  | CClass.rparC => XRes.ok ([Token.rparen], pos + 1, rest)
  | CClass.commaC => XRes.ok ([Token.comma], pos + 1, rest)
  | CClass.percentC => XRes.ok ([Token.mod], pos + 1, rest)
  | CClass.bangC =>
    match rest with
    | '=' :: rest2 => XRes.ok ([Token.ne], pos + 2, rest2)
    | _ => XRes.ok ([Token.factorial], pos + 1, rest)
  | CClass.eqC =>
    match rest with
    | '=' :: rest2 => XRes.ok ([Token.eqEq], pos + 2, rest2)
    | _ => XRes.err (Err.parse
        ("Unexpected '=' in expression (use '==' for equality)"))
  | CClass.ltC =>
    match rest with
    | '=' :: rest2 => XRes.ok ([Token.le], pos + 2, rest2)
    | _ => XRes.ok ([Token.lt], pos + 1, rest)
  | CClass.gtC =>
    match rest with
    | '=' :: rest2 => XRes.ok ([Token.ge], pos + 2, rest2)
    | _ => XRes.ok ([Token.gt], pos + 1, rest)
  | CClass.ampC =>
    match rest with
    | '&' :: rest2 => XRes.ok ([Token.andAnd], pos + 2, rest2)
    | _ => XRes.err (Err.parse ("Expected '&&'"))
  | CClass.barC =>
    match rest with
    | '|' :: rest2 => XRes.ok ([Token.orOr], pos + 2, rest2)
    | _ => tokBar pos rest
  | CClass.dotC => tokDot pos rest
  | CClass.digitC => tokNum pos c rest
  | CClass.greekC =>
    -- single-character Greek identifier (never equal to "log", so the
    -- source's subscript-base check cannot fire for it)
    XRes.ok ([Token.ident ((asciiLower [c]).asString)], pos + 1, rest)
  | CClass.alphaC => tokIdentTok pos c rest
  | CClass.sqrtC => XRes.ok ([Token.ident ("sqrt")], pos + 1, rest)
  | CClass.otherC =>
      XRes.err (Err.parse ("Unexpected character: '" ++ String.mk [c] ++ "'"))

def length_dropWhile_le (p : Char → Bool) (l : List Char) :
    (l.dropWhile p).length ≤ l.length :=
  (List.dropWhile_suffix p).length_le

/-- Length of the remaining input of a loop-step result (`0` for errors). -/
def stepRestLen : XRes (List Token × Nat × List Char) → Nat
  | XRes.ok (_, _, cs') => cs'.length
  | XRes.err _ => 0

theorem tokDot_restLen_le (pos : Nat) (rest : List Char) :
    stepRestLen (tokDot pos rest) ≤ rest.length := by
  unfold tokDot
  dsimp only []
  split
  · simp [stepRestLen]
  · simp only [stepRestLen]
    exact length_dropWhile_le _ _

theorem tokNum_restLen_le (pos : Nat) (c : Char) (rest : List Char) :
    stepRestLen (tokNum pos c rest) ≤ rest.length := by
  have h1 := length_dropWhile_le (fun ch => ch.isDigit || ch = '.') rest
  unfold tokNum
  dsimp only []
  split
  case h_1 d rest2 heq =>
    rw [heq] at h1
    split
    · split
      · simp only [stepRestLen]
        have h2 := length_dropWhile_le Char.isDigit (d :: rest2)
        simp at h1 h2 ⊢
        omega
      · simp [stepRestLen]
    · split
      · simpa [stepRestLen] using h1
      · simp [stepRestLen]
  case h_2 =>
    split
    · simpa [stepRestLen] using h1
    · simp [stepRestLen]

theorem tokIdentTok_restLen_le (pos : Nat) (c : Char) (rest : List Char) :
    stepRestLen (tokIdentTok pos c rest) ≤ rest.length := by
  have h1 := length_dropWhile_le (fun ch => ch.isAlphanum || ch = '_') rest
  have h2 := length_dropWhile_le (fun ch => ch ≠ uSubR)
    ((rest.dropWhile (fun ch => ch.isAlphanum || ch = '_')).drop 1)
  rw [List.length_drop] at h2
  unfold tokIdentTok
  dsimp only []
  split
  · split
    · simp only [stepRestLen, List.length_drop]
      omega
    · simp only [stepRestLen]
      omega
  · simpa [stepRestLen] using h1

theorem tokBar_restLen_le (pos : Nat) (rest : List Char) :
    stepRestLen (tokBar pos rest) ≤ rest.length := by
  simpa [tokBar, stepRestLen] using absLoop_length_le rest

set_option maxHeartbeats 1000000 in
theorem tokStep_restLen_le (pos : Nat) (c : Char) (rest : List Char) :
    stepRestLen (tokStep pos c rest) ≤ rest.length := by
  unfold tokStep
  repeat' split
  all_goals solve
    | exact tokDot_restLen_le _ _
    | exact tokNum_restLen_le _ _ _
    | exact tokIdentTok_restLen_le _ _ _
    | exact tokBar_restLen_le _ _
    | simp [stepRestLen]

/-- Each loop iteration never grows the remaining input. -/
theorem tokStep_rest_le (pos : Nat) (c : Char) (rest : List Char)
    (pre : List Token) (pos' : Nat) (cs' : List Char)
    (h : tokStep pos c rest = XRes.ok (pre, pos', cs')) : cs'.length ≤ rest.length := by
  have hb := tokStep_restLen_le pos c rest
  rw [h] at hb
  simpa [stepRestLen] using hb

/-- Main tokenizer loop, one fuel unit per iteration of the source's
`while pos < chars.len()`. `none` means the fuel ran out, which
`tokenizeAux_isSome` rules out for the budget used by `tokenize`. -/
def tokenizeAux : Nat → Nat → List Char → Option (XRes (List Token))
  | 0, _, _ => none
  | _ + 1, _, [] => some (XRes.ok [])
  | fuel + 1, pos, c :: rest =>
    match tokStep pos c rest with
    | XRes.err e => some (XRes.err e)
    | XRes.ok (pre, pos', cs') => (tokenizeAux fuel pos' cs').map (consToks pre)

theorem tokenizeAux_isSome :
    ∀ fuel pos cs, (cs : List Char).length < fuel → (tokenizeAux fuel pos cs).isSome := by
  intro fuel
  induction fuel with
  | zero => intro pos cs h; omega
  | succ n ih =>
      intro pos cs h
      match cs with
      | [] => simp [tokenizeAux]
      | c :: rest =>
        simp only [tokenizeAux]
        cases hs : tokStep pos c rest with
        | err e => simp
        | ok r =>
          obtain ⟨pre, pos', cs'⟩ := r
          have hb := tokStep_rest_le pos c rest pre pos' cs' hs
          have hsome := ih pos' cs' (by simp at h; omega)
          simpa using hsome

/-- Entry point `tokenize` (tokenizer.rs line 27): a total function of the
input string; the recursion budget `length + 1` is provably sufficient. -/
def tokenize (s : String) : XRes (List Token) :=
  (tokenizeAux (s.toList.length + 1) 0 s.toList).get
    (tokenizeAux_isSome _ 0 _ (Nat.lt_succ_self _))

example : tokenize ("2+3*4") = XRes.ok
    [Token.number ⟨2, 0⟩, Token.plus, Token.number ⟨3, 0⟩, Token.mul,
     Token.number ⟨4, 0⟩] := by decide

example : tokenize ("|3-2|") = tokenize ("abs(3-2)") := by decide

example : tokenize (" sIn(2.5)! ") = XRes.ok
    [Token.ident ("sin"), Token.lparen, Token.number ⟨25, 1⟩, Token.rparen,
     Token.factorial] := by decide

/-! ## AST (src/core/src/ast/types.rs) -/

/-- Binary operators of the expression language. -/
inductive BinOp where
  | add
  | sub
  | mul
  | div
  | pow
  | mod
  | eq
  | ne
  | lt
  | le
  | gt
  | ge
  | and
  | or
deriving DecidableEq, Repr

/-- Abstract syntax tree node (numeric literals kept as exact decimals,
see `NumLit`). -/
inductive Ast where
  | number (value : NumLit)
  | var (name : String)
  | binOp (op : BinOp) (left : Ast) (right : Ast)
  | unaryNeg (inner : Ast)
  | unaryNot (inner : Ast)
  | fact (inner : Ast)
  | call (name : String) (args : List Ast)

/-! ## Parser (src/core/src/ast/parser.rs)

The source walks a token slice with a mutable index; the embedding passes
the remaining suffix of the token list instead and threads an explicit
recursion budget (one unit per function invocation).  `PRes.noFuel` marks
budget exhaustion; `parseFuel_sufficient` below shows the budget used by
`parseTokens` never runs out, so the embedded parser is total. -/

/-- Result of one parsing function: parsed node plus remaining tokens. -/
inductive PRes where
  | ok (a : Ast) (rest : List Token)
  | err (e : Err)
  | noFuel

/-- Result of `parse_arg_list`. -/
inductive PArgs where
  | ok (args : List Ast) (rest : List Token)
  | err (e : Err)
  | noFuel

/-- True if the identifier is a known function name (parser.rs lines
228-242). -/
def isFunction (name : String) : Bool :=
  ([("sin" : String), "cos", "tan", "cot", "sec", "csc",
    "asin", "acos", "atan", "acot", "asec", "acsc",
    "sinh", "cosh", "tanh", "coth", "sech", "csch",
    "asinh", "acosh", "atanh", "acoth", "asech", "acsch",
    "ln", "lg", "log", "exp",
    "sqrt", "cbrt", "abs",
    "floor", "ceil", "round", "trunc", "frac",
    "sign", "sgn", "arg", "conj", "real", "imag",
    "deg", "rad",
    "if", "min", "max", "clamp", "gcd", "lcm"].contains name)
  || List.isPrefixOf ("log:".toList) name.toList

/-- Constants resolved at parse time (parser.rs lines 245-254).  The f64
constants `E`, `PI` and the `phi` literal are modelled by their decimal
expansions (binary rounding of constants is not modelled). -/
def resolveConstOrVar (name : String) (rest : List Token) : PRes :=
  match name with
  | "e" => PRes.ok (Ast.number ⟨2718281828459045, 15⟩) rest
  | "pi" => PRes.ok (Ast.number ⟨3141592653589793, 15⟩) rest
  | "π" => PRes.ok (Ast.number ⟨3141592653589793, 15⟩) rest
  | "phi" => PRes.ok (Ast.number ⟨1618033988749895, 15⟩) rest
  | "ϕ" => PRes.ok (Ast.number ⟨1618033988749895, 15⟩) rest
  | "ε" => PRes.ok (Ast.number ⟨2718281828459045, 15⟩) rest
  | "epsilon" => PRes.ok (Ast.number ⟨2718281828459045, 15⟩) rest
  | "mod" => PRes.err (Err.parse ("'mod' must be used as a binary operator"))
  | _ => PRes.ok (Ast.var name) rest

/-- Postfix factorial collection after the power level (parser.rs lines
137-145): `n!`, `n!!`, ... -/
def factLoop : Ast → List Token → (Ast × List Token)
  | a, Token.factorial :: rest => factLoop (Ast.fact a) rest
  | a, ts => (a, ts)

/-- Comparison operator of a token, if any (parser.rs lines 61-68). -/
def cmpOpOf : Token → Option BinOp
  | Token.eqEq => some BinOp.eq
  | Token.ne => some BinOp.ne
  | Token.lt => some BinOp.lt
  | Token.le => some BinOp.le
  | Token.gt => some BinOp.gt
  | Token.ge => some BinOp.ge
  | _ => none

/-- Rust `?`-propagation followed by a continuation: `chainRes sub f`
runs `f` on a successful sub-parse and passes errors (and fuel exhaustion)
through unchanged. -/
def chainRes (sub : PRes) (f : Ast → List Token → PRes) : PRes :=
  match sub with
  | PRes.ok a rest => f a rest
  | e => e

/-- Wrap the node of a successful sub-parse. -/
def mapRes (g : Ast → Ast) : PRes → PRes
  | PRes.ok a rest => PRes.ok (g a) rest
  | e => e

/-- `?`-propagation from an argument-list parse into an expression parse. -/
def chainArgsP (sub : PArgs) (f : List Ast → List Token → PRes) : PRes :=
  match sub with
  | PArgs.ok args rest => f args rest
  | PArgs.err e => PRes.err e
  | PArgs.noFuel => PRes.noFuel

/-- `?`-propagation from an expression parse into an argument-list parse. -/
def chainPA (sub : PRes) (f : Ast → List Token → PArgs) : PArgs :=
  match sub with
  | PRes.ok a rest => f a rest
  | PRes.err e => PArgs.err e
  | PRes.noFuel => PArgs.noFuel

/-! Head-token classifiers: transparent reformulations of the source's
`match` arms, so that proofs split on one small `Option` instead of on
every token constructor. -/

/-- Operator accepted by the `||` loop. -/
def orOpOf : Token → Option BinOp
  | Token.orOr => some BinOp.or
  | _ => none

/-- Operator accepted by the `&&` loop. -/
def andOpOf : Token → Option BinOp
  | Token.andAnd => some BinOp.and
  | _ => none

/-- Operator accepted by the `+ -` loop. -/
def addOpOf : Token → Option BinOp
  | Token.plus => some BinOp.add
  | Token.minus => some BinOp.sub
  | _ => none

/-- Operator accepted by the `* / %` loop. -/
def termOpOf : Token → Option BinOp
  | Token.mul => some BinOp.mul
  | Token.div => some BinOp.div
  | Token.mod => some BinOp.mod
  | _ => none

/-- Split off a recognised binary operator at the head of the tokens. -/
def opSplit (opOf : Token → Option BinOp) : List Token → Option (BinOp × List Token)
  | [] => none
  | t :: rest =>
    match opOf t with
    | some op => some (op, rest)
    | none => none

/-- Does the head token trigger implicit multiplication (`(` or an
identifier, parser.rs line 117)? -/
def headImplicitMul : List Token → Bool
  | Token.lparen :: _ => true
  | Token.ident _ :: _ => true
  | _ => false

/-- The tokens after a given expected head token, if it is there. -/
def tokTail (t : Token) : List Token → Option (List Token)
  | t' :: rest => if t' = t then some rest else none
  | [] => none

/-- Prefix operators of `parse_unary`. -/
inductive PreOp where
  | negOp
  | plusOp
  | notOp
deriving DecidableEq, Repr

def preOpOf : Token → Option PreOp
  | Token.minus => some PreOp.negOp
  | Token.plus => some PreOp.plusOp
  | Token.factorial => some PreOp.notOp
  | _ => none

/-- Head shape for `parse_primary`. -/
inductive PrimClass where
  | num (v : NumLit) (rest : List Token)
  | idC (name : String) (rest : List Token)
  | lpar (rest : List Token)
  | endOfInput
  | otherTok
deriving Repr

def primClass : List Token → PrimClass
  | [] => PrimClass.endOfInput
  | Token.number v :: rest => PrimClass.num v rest
  | Token.ident name :: rest => PrimClass.idC name rest
  | Token.lparen :: rest => PrimClass.lpar rest
  | _ => PrimClass.otherTok

mutual

/-- parser.rs `parse_expr`. -/
def parseExpr : Nat → List Token → PRes
  | 0, _ => PRes.noFuel
  | fuel + 1, ts => parseOr fuel ts

/-- parser.rs `parse_or`. -/
def parseOr : Nat → List Token → PRes
  | 0, _ => PRes.noFuel
  | fuel + 1, ts => chainRes (parseAnd fuel ts) (orLoop fuel)

/-- The `||` loop of `parse_or` (parser.rs lines 32-40). -/
def orLoop : Nat → Ast → List Token → PRes
  | 0, _, _ => PRes.noFuel
  | fuel + 1, left, ts =>
    match opSplit orOpOf ts with
    | some (op, rest) =>
        chainRes (parseAnd fuel rest)
          (fun right rest2 => orLoop fuel (Ast.binOp op left right) rest2)
    | none => PRes.ok left ts

/-- parser.rs `parse_and`. -/
def parseAnd : Nat → List Token → PRes
  | 0, _ => PRes.noFuel
  | fuel + 1, ts => chainRes (parseComparison fuel ts) (andLoop fuel)

/-- The `&&` loop of `parse_and` (parser.rs lines 46-54). -/
def andLoop : Nat → Ast → List Token → PRes
  | 0, _, _ => PRes.noFuel
  | fuel + 1, left, ts =>
    match opSplit andOpOf ts with
    | some (op, rest) =>
        chainRes (parseComparison fuel rest)
          (fun right rest2 => andLoop fuel (Ast.binOp op left right) rest2)
    | none => PRes.ok left ts

/-- parser.rs `parse_comparison`. -/
def parseComparison : Nat → List Token → PRes
  | 0, _ => PRes.noFuel
  | fuel + 1, ts => chainRes (parseAdd fuel ts) (cmpLoop fuel)

/-- The comparison loop of `parse_comparison` (parser.rs lines 60-73). -/
def cmpLoop : Nat → Ast → List Token → PRes
  | 0, _, _ => PRes.noFuel
  | fuel + 1, left, ts =>
    match opSplit cmpOpOf ts with
    | some (op, rest) =>
        chainRes (parseAdd fuel rest)
          (fun right rest2 => cmpLoop fuel (Ast.binOp op left right) rest2)
    | none => PRes.ok left ts

/-- parser.rs `parse_add`. -/
def parseAdd : Nat → List Token → PRes
  | 0, _ => PRes.noFuel
  | fuel + 1, ts => chainRes (parseTerm fuel ts) (addLoop fuel)

/-- The `+ -` loop of `parse_add` (parser.rs lines 79-93). -/
def addLoop : Nat → Ast → List Token → PRes
  | 0, _, _ => PRes.noFuel
  | fuel + 1, left, ts =>
    match opSplit addOpOf ts with
    | some (op, rest) =>
        chainRes (parseTerm fuel rest)
          (fun right rest2 => addLoop fuel (Ast.binOp op left right) rest2)
    | none => PRes.ok left ts

/-- parser.rs `parse_term`. -/
def parseTerm : Nat → List Token → PRes
  | 0, _ => PRes.noFuel
  | fuel + 1, ts => chainRes (parsePower fuel ts) (termLoop fuel)

/-- The `* / %` loop of `parse_term`, including implicit multiplication when
the next token is `(` or an identifier (parser.rs lines 99-123; in the
implicit case no operator token is consumed). -/
def termLoop : Nat → Ast → List Token → PRes
  | 0, _, _ => PRes.noFuel
  | fuel + 1, left, ts =>
    match opSplit termOpOf ts with
    | some (op, rest) =>
        chainRes (parsePower fuel rest)
          (fun right rest2 => termLoop fuel (Ast.binOp op left right) rest2)
    | none =>
      if headImplicitMul ts then
        chainRes (parsePower fuel ts)
          (fun right rest2 => termLoop fuel (Ast.binOp BinOp.mul left right) rest2)
      else PRes.ok left ts

/-- parser.rs `parse_power`: right-associative `^` (checked before postfix
factorials are collected), then the postfix factorial loop. -/
def parsePower : Nat → List Token → PRes
  | 0, _ => PRes.noFuel
  | fuel + 1, ts =>
    chainRes (parseUnary fuel ts)
      (fun base rest =>
        match tokTail Token.pow rest with
        | some rest2 =>
            mapRes (fun exponent => Ast.binOp BinOp.pow base exponent)
              (parsePower fuel rest2)
        | none => PRes.ok (factLoop base rest).1 (factLoop base rest).2)

/-- parser.rs `parse_unary`: prefix `-`, `+`, `!` over a primary. -/
def parseUnary : Nat → List Token → PRes
  | 0, _ => PRes.noFuel
  | fuel + 1, ts =>
    match ts with
    | t :: rest =>
      (match preOpOf t with
       | some PreOp.negOp => mapRes Ast.unaryNeg (parsePrimary fuel rest)
       | some PreOp.plusOp => parsePrimary fuel rest
       | some PreOp.notOp => mapRes Ast.unaryNot (parsePrimary fuel rest)
       | none => parsePrimary fuel ts)
    | [] => parsePrimary fuel ts

/-- parser.rs `parse_primary`: number, identifier (call, implicit function
application, or constant/variable), parenthesised expression. -/
def parsePrimary : Nat → List Token → PRes
  | 0, _ => PRes.noFuel
  | fuel + 1, ts =>
    match primClass ts with
    | PrimClass.endOfInput => PRes.err (Err.parse ("Unexpected end of expression"))
    | PrimClass.num v rest => PRes.ok (Ast.number v) rest
    | PrimClass.idC name rest =>
      (match tokTail Token.lparen rest with
       | some rest2 =>
         chainArgsP (parseArgs fuel rest2)
           (fun args rest3 =>
             match tokTail Token.rparen rest3 with
             | some rest4 => PRes.ok (Ast.call name args) rest4
             | none => PRes.err (Err.parse ("Missing ')'")))
       | none =>
         if isFunction name then
           mapRes (fun arg => Ast.call name [arg]) (parseUnary fuel rest)
         else resolveConstOrVar name rest)
    | PrimClass.lpar rest =>
      chainRes (parseExpr fuel rest)
        (fun inner rest2 =>
          match tokTail Token.rparen rest2 with
          | some rest3 => PRes.ok inner rest3
          | none => PRes.err (Err.parse ("Missing ')'")))
    | PrimClass.otherTok => PRes.err (Err.parse ("Unexpected token"))

/-- parser.rs `parse_arg_list`. -/
def parseArgs : Nat → List Token → PArgs
  | 0, _ => PArgs.noFuel
  | fuel + 1, ts =>
    match tokTail Token.rparen ts with
    | some _ => PArgs.ok [] ts
    | none => chainPA (parseExpr fuel ts) (fun a rest => argsLoop fuel [a] rest)

/-- The comma loop of `parse_arg_list` (parser.rs lines 220-223). -/
def argsLoop : Nat → List Ast → List Token → PArgs
  | 0, _, _ => PArgs.noFuel
  | fuel + 1, acc, ts =>
    match tokTail Token.comma ts with
    | some rest =>
        chainPA (parseExpr fuel rest) (fun a rest2 => argsLoop fuel (acc ++ [a]) rest2)
    | none => PArgs.ok acc ts

end

/-! ### Parser metatheory: consumption, suffixes, error kinds -/

/-- Successful parses return a strictly shorter suffix of the input. -/
def okStrict (r : PRes) (ts : List Token) : Prop :=
  ∀ a rest, r = PRes.ok a rest → rest <:+ ts ∧ rest.length < ts.length

/-- Loop results return a (possibly equal) suffix of the input. -/
def okSuffix (r : PRes) (ts : List Token) : Prop :=
  ∀ a rest, r = PRes.ok a rest → rest <:+ ts

/-- Every error a parsing function produces has kind `ParseError`. -/
def errParse (r : PRes) : Prop :=
  ∀ e, r = PRes.err e → e.kind = ErrorKind.parseError

def argsSuffix (r : PArgs) (ts : List Token) : Prop :=
  ∀ args rest, r = PArgs.ok args rest → rest <:+ ts

def argsErrParse (r : PArgs) : Prop :=
  ∀ e, r = PArgs.err e → e.kind = ErrorKind.parseError

theorem factLoop_suffix (a : Ast) (ts : List Token) : (factLoop a ts).2 <:+ ts := by
  induction ts generalizing a with
  | nil => simp [factLoop]
  | cons t rest ih =>
      cases t <;> simp only [factLoop] <;>
        first
          | exact (ih _).trans (List.suffix_cons _ _)
          | exact List.suffix_rfl

theorem chainRes_progress (f : Ast → List Token → PRes) {sub : PRes} {ts : List Token}
    (hsub : okStrict sub ts) (hsubE : errParse sub)
    (hf : ∀ l r, sub = PRes.ok l r → okSuffix (f l r) r ∧ errParse (f l r)) :
    okStrict (chainRes sub f) ts ∧ errParse (chainRes sub f) := by
  cases sub with
  | ok l r =>
      obtain ⟨h1, h2⟩ := hsub l r rfl
      obtain ⟨hfS, hfE⟩ := hf l r rfl
      constructor
      · intro a rest hr
        have hs := hfS a rest hr
        exact ⟨hs.trans h1, lt_of_le_of_lt hs.length_le h2⟩
      · exact hfE
  | err e =>
      exact ⟨(fun a rest hr => nomatch hr), (fun e' he => by cases he; exact hsubE _ rfl)⟩
  | noFuel =>
      exact ⟨(fun a rest hr => nomatch hr), (fun e' he => nomatch he)⟩

theorem mapRes_okStrict {g : Ast → Ast} {sub : PRes} {ts : List Token}
    (h : okStrict sub ts) : okStrict (mapRes g sub) ts := by
  cases sub with
  | ok a rest => intro a' r' hr; cases hr; exact h a rest rfl
  | err e => intro a' r' hr; cases hr
  | noFuel => intro a' r' hr; cases hr

theorem mapRes_okSuffix {g : Ast → Ast} {sub : PRes} {ts : List Token}
    (h : okSuffix sub ts) : okSuffix (mapRes g sub) ts := by
  cases sub with
  | ok a rest => intro a' r' hr; cases hr; exact h a rest rfl
  | err e => intro a' r' hr; cases hr
  | noFuel => intro a' r' hr; cases hr

theorem mapRes_errParse {g : Ast → Ast} {sub : PRes}
    (h : errParse sub) : errParse (mapRes g sub) := by
  cases sub with
  | ok a rest => intro e he; cases he
  | err e => intro e' he; cases he; exact h _ rfl
  | noFuel => intro e he; cases he

theorem chainArgsP_progress (f : List Ast → List Token → PRes) {sub : PArgs}
    {ts : List Token}
    (hsub : argsSuffix sub ts) (hsubE : argsErrParse sub)
    (hf : ∀ l r, sub = PArgs.ok l r → okSuffix (f l r) r ∧ errParse (f l r)) :
    okSuffix (chainArgsP sub f) ts ∧ errParse (chainArgsP sub f) := by
  cases sub with
  | ok l r =>
      obtain ⟨hfS, hfE⟩ := hf l r rfl
      exact ⟨fun a rest hr => (hfS a rest hr).trans (hsub l r rfl), hfE⟩
  | err e =>
      exact ⟨(fun a rest hr => nomatch hr), (fun e' he => by cases he; exact hsubE _ rfl)⟩
  | noFuel =>
      exact ⟨(fun a rest hr => nomatch hr), (fun e' he => nomatch he)⟩

theorem chainPA_progress (f : Ast → List Token → PArgs) {sub : PRes} {ts : List Token}
    (hsub : okStrict sub ts) (hsubE : errParse sub)
    (hf : ∀ a r, sub = PRes.ok a r → argsSuffix (f a r) r ∧ argsErrParse (f a r)) :
    argsSuffix (chainPA sub f) ts ∧ argsErrParse (chainPA sub f) := by
  cases sub with
  | ok l r =>
      obtain ⟨hfS, hfE⟩ := hf l r rfl
      exact ⟨fun a rest hr => (hfS a rest hr).trans (hsub l r rfl).1, hfE⟩
  | err e =>
      exact ⟨(fun a rest hr => nomatch hr), (fun e' he => by cases he; exact hsubE _ rfl)⟩
  | noFuel =>
      exact ⟨(fun a rest hr => nomatch hr), (fun e' he => nomatch he)⟩

theorem opSplit_suffix {opOf : Token → Option BinOp} {ts rest : List Token} {op : BinOp}
    (h : opSplit opOf ts = some (op, rest)) : rest.length + 1 = ts.length ∧ rest <:+ ts := by
  match ts with
  | [] => cases h
  | t :: r =>
      simp only [opSplit] at h
      cases hop : opOf t with
      | some op' => rw [hop] at h; cases h; exact ⟨rfl, List.suffix_cons _ _⟩
      | none => rw [hop] at h; cases h

theorem tokTail_suffix {t : Token} {ts rest : List Token}
    (h : tokTail t ts = some rest) : rest.length + 1 = ts.length ∧ rest <:+ ts := by
  match ts with
  | [] => cases h
  | t' :: r =>
      simp only [tokTail] at h
      split at h
      · cases h; exact ⟨rfl, List.suffix_cons _ _⟩
      · cases h

theorem primClass_num {ts : List Token} {v : NumLit} {rest : List Token}
    (h : primClass ts = PrimClass.num v rest) : ts = Token.number v :: rest := by
  match ts with
  | [] => cases h
  | t :: r => cases t <;> (cases h <;> rfl)

theorem primClass_id {ts : List Token} {name : String} {rest : List Token}
    (h : primClass ts = PrimClass.idC name rest) : ts = Token.ident name :: rest := by
  match ts with
  | [] => cases h
  | t :: r => cases t <;> (cases h <;> rfl)

theorem primClass_lpar {ts : List Token} {rest : List Token}
    (h : primClass ts = PrimClass.lpar rest) : ts = Token.lparen :: rest := by
  match ts with
  | [] => cases h
  | t :: r => cases t <;> (cases h <;> rfl)

theorem resolveConstOrVar_ok {name : String} {rest : List Token} {a : Ast}
    {r : List Token} (h : resolveConstOrVar name rest = PRes.ok a r) : r = rest := by
  unfold resolveConstOrVar at h
  repeat' split at h
  all_goals (cases h) <;> rfl

theorem resolveConstOrVar_err (name : String) (rest : List Token) :
    errParse (resolveConstOrVar name rest) := by
  intro e he
  unfold resolveConstOrVar at he
  repeat' split at he
  all_goals (cases he) <;> rfl

set_option maxHeartbeats 1600000 in
theorem parseProgress : ∀ fuel : Nat,
    (∀ ts, okStrict (parseExpr fuel ts) ts ∧ errParse (parseExpr fuel ts)) ∧
    (∀ ts, okStrict (parseOr fuel ts) ts ∧ errParse (parseOr fuel ts)) ∧
    (∀ left ts, okSuffix (orLoop fuel left ts) ts ∧ errParse (orLoop fuel left ts)) ∧
    (∀ ts, okStrict (parseAnd fuel ts) ts ∧ errParse (parseAnd fuel ts)) ∧
    (∀ left ts, okSuffix (andLoop fuel left ts) ts ∧ errParse (andLoop fuel left ts)) ∧
    (∀ ts, okStrict (parseComparison fuel ts) ts ∧
      errParse (parseComparison fuel ts)) ∧
    (∀ left ts, okSuffix (cmpLoop fuel left ts) ts ∧ errParse (cmpLoop fuel left ts)) ∧
    (∀ ts, okStrict (parseAdd fuel ts) ts ∧ errParse (parseAdd fuel ts)) ∧
    (∀ left ts, okSuffix (addLoop fuel left ts) ts ∧ errParse (addLoop fuel left ts)) ∧
    (∀ ts, okStrict (parseTerm fuel ts) ts ∧ errParse (parseTerm fuel ts)) ∧
    (∀ left ts, okSuffix (termLoop fuel left ts) ts ∧
      errParse (termLoop fuel left ts)) ∧
    (∀ ts, okStrict (parsePower fuel ts) ts ∧ errParse (parsePower fuel ts)) ∧
    (∀ ts, okStrict (parseUnary fuel ts) ts ∧ errParse (parseUnary fuel ts)) ∧
    (∀ ts, okStrict (parsePrimary fuel ts) ts ∧ errParse (parsePrimary fuel ts)) ∧
    (∀ ts, argsSuffix (parseArgs fuel ts) ts ∧ argsErrParse (parseArgs fuel ts)) ∧
    (∀ acc ts, argsSuffix (argsLoop fuel acc ts) ts ∧
      argsErrParse (argsLoop fuel acc ts)) := by
  intro fuel
  induction fuel with
  | zero =>
      refine ⟨?_, ?_, ?_, ?_, ?_, ?_, ?_, ?_, ?_, ?_, ?_, ?_, ?_, ?_, ?_, ?_⟩ <;>
        intros <;>
        exact ⟨(fun _ _ h => nomatch h), (fun _ h => nomatch h)⟩
  | succ n ih =>
      obtain ⟨ihExpr, ihOr, ihOrL, ihAnd, ihAndL, ihCmp, ihCmpL, ihAdd, ihAddL,
        ihTerm, ihTermL, ihPow, ihUn, ihPrim, ihArgs, ihArgsL⟩ := ih
      -- the `||`, `&&`, comparison and `+ -` loops share one proof shape
      have loopStep :
          ∀ (opOf : Token → Option BinOp) (sub : Nat → List Token → PRes)
            (loop : Nat → Ast → List Token → PRes),
            (∀ ts, okStrict (sub n ts) ts ∧ errParse (sub n ts)) →
            (∀ left ts, okSuffix (loop n left ts) ts ∧ errParse (loop n left ts)) →
            ∀ left ts,
              okSuffix
                (match opSplit opOf ts with
                 | some (op, rest) =>
                     chainRes (sub n rest)
                       (fun right rest2 => loop n (Ast.binOp op left right) rest2)
                 | none => PRes.ok left ts) ts ∧
              errParse
                (match opSplit opOf ts with
                 | some (op, rest) =>
                     chainRes (sub n rest)
                       (fun right rest2 => loop n (Ast.binOp op left right) rest2)
                 | none => PRes.ok left ts) := by
        intro opOf sub loop hsub hloop left ts
        cases hsp : opSplit opOf ts with
        | none =>
            exact ⟨(fun a r hr => by cases hr; exact List.suffix_rfl),
                   (fun e he => nomatch he)⟩
        | some pr =>
            obtain ⟨op, rest⟩ := pr
            have hc := chainRes_progress
              (fun right rest2 => loop n (Ast.binOp op left right) rest2)
              (hsub rest).1 (hsub rest).2
              (fun l r _ => hloop (Ast.binOp op left l) r)
            exact ⟨(fun a r hr => ((hc.1 a r hr).1).trans (opSplit_suffix hsp).2),
                   hc.2⟩
      have hOrL : ∀ left ts, okSuffix (orLoop (n + 1) left ts) ts ∧
          errParse (orLoop (n + 1) left ts) := by
        intro left ts
        simp only [orLoop]
        exact loopStep orOpOf parseAnd orLoop ihAnd ihOrL left ts
      have hAndL : ∀ left ts, okSuffix (andLoop (n + 1) left ts) ts ∧
          errParse (andLoop (n + 1) left ts) := by
        intro left ts
        simp only [andLoop]
        exact loopStep andOpOf parseComparison andLoop ihCmp ihAndL left ts
      have hCmpL : ∀ left ts, okSuffix (cmpLoop (n + 1) left ts) ts ∧
          errParse (cmpLoop (n + 1) left ts) := by
        intro left ts
        simp only [cmpLoop]
        exact loopStep cmpOpOf parseAdd cmpLoop ihAdd ihCmpL left ts
      have hAddL : ∀ left ts, okSuffix (addLoop (n + 1) left ts) ts ∧
          errParse (addLoop (n + 1) left ts) := by
        intro left ts
        simp only [addLoop]
        exact loopStep addOpOf parseTerm addLoop ihTerm ihAddL left ts
      have hTermL : ∀ left ts, okSuffix (termLoop (n + 1) left ts) ts ∧
          errParse (termLoop (n + 1) left ts) := by
        intro left ts
        simp only [termLoop]
        cases hsp : opSplit termOpOf ts with
        | some pr =>
            obtain ⟨op, rest⟩ := pr
            have hc := chainRes_progress
              (fun right rest2 => termLoop n (Ast.binOp op left right) rest2)
              (ihPow rest).1 (ihPow rest).2
              (fun l r _ => ihTermL (Ast.binOp op left l) r)
            exact ⟨(fun a r hr => ((hc.1 a r hr).1).trans (opSplit_suffix hsp).2),
                   hc.2⟩
        | none =>
            by_cases him : headImplicitMul ts
            · rw [if_pos him]
              have hc := chainRes_progress
                (fun right rest2 => termLoop n (Ast.binOp BinOp.mul left right) rest2)
                (ihPow ts).1 (ihPow ts).2
                (fun l r _ => ihTermL (Ast.binOp BinOp.mul left l) r)
              exact ⟨(fun a r hr => (hc.1 a r hr).1), hc.2⟩
            · rw [if_neg him]
              exact ⟨(fun a r hr => by cases hr; exact List.suffix_rfl),
                     (fun e he => nomatch he)⟩
      have hPow : ∀ ts, okStrict (parsePower (n + 1) ts) ts ∧
          errParse (parsePower (n + 1) ts) := by
        intro ts
        simp only [parsePower]
        refine chainRes_progress
          (fun base rest =>
            match tokTail Token.pow rest with
            | some rest2 =>
                mapRes (fun exponent => Ast.binOp BinOp.pow base exponent)
                  (parsePower n rest2)
            | none => PRes.ok (factLoop base rest).1 (factLoop base rest).2)
          (ihUn ts).1 (ihUn ts).2 ?_
        intro base rest _
        dsimp only []
        cases hpt : tokTail Token.pow rest with
        | some rest2 =>
            have hsfx := (tokTail_suffix hpt).2
            constructor
            · exact mapRes_okSuffix
                (fun a r hr => ((ihPow rest2).1 a r hr).1.trans hsfx)
            · exact mapRes_errParse (ihPow rest2).2
        | none =>
            exact ⟨(fun a r hr => by cases hr; exact factLoop_suffix base rest),
                   (fun e he => nomatch he)⟩
      have hUn : ∀ ts, okStrict (parseUnary (n + 1) ts) ts ∧
          errParse (parseUnary (n + 1) ts) := by
        intro ts
        match ts with
        | [] => exact ihPrim []
        | t :: rest =>
          have strength : okStrict (parsePrimary n rest) rest →
              okStrict (mapRes Ast.unaryNeg (parsePrimary n rest)) (t :: rest) ∧
              okStrict (mapRes Ast.unaryNot (parsePrimary n rest)) (t :: rest) ∧
              okStrict (parsePrimary n rest) (t :: rest) := by
            intro h
            have hw : okStrict (parsePrimary n rest) (t :: rest) := by
              intro a r hr
              obtain ⟨h1, h2⟩ := h a r hr
              exact ⟨h1.trans (List.suffix_cons _ _), by simp; omega⟩
            exact ⟨mapRes_okStrict hw, mapRes_okStrict hw, hw⟩
          obtain ⟨hNeg, hNot, hPass⟩ := strength (ihPrim rest).1
          simp only [parseUnary]
          cases hpre : preOpOf t with
          | none => exact ihPrim (t :: rest)
          | some po =>
              cases po with
              | negOp => exact ⟨hNeg, mapRes_errParse (ihPrim rest).2⟩
              | plusOp => exact ⟨hPass, (ihPrim rest).2⟩
              | notOp => exact ⟨hNot, mapRes_errParse (ihPrim rest).2⟩
      have hPrim : ∀ ts, okStrict (parsePrimary (n + 1) ts) ts ∧
          errParse (parsePrimary (n + 1) ts) := by
        intro ts
        simp only [parsePrimary]
        cases hpc : primClass ts with
        | endOfInput =>
            exact ⟨(fun a r hr => nomatch hr), (fun e he => by cases he; rfl)⟩
        | num v rest =>
            have hts := primClass_num hpc
            exact ⟨(fun a r hr => by
              cases hr
              rw [hts]
              exact ⟨List.suffix_cons _ _, by simp⟩),
              (fun e he => nomatch he)⟩
        | idC name rest =>
            have hts := primClass_id hpc
            dsimp only []
            cases hlp : tokTail Token.lparen rest with
            | some rest2 =>
                have hlpS := tokTail_suffix hlp
                have hg : ∀ args rest3,
                    parseArgs n rest2 = PArgs.ok args rest3 →
                    okSuffix
                      (match tokTail Token.rparen rest3 with
                       | some rest4 => PRes.ok (Ast.call name args) rest4
                       | none => PRes.err (Err.parse ("Missing ')'"))) rest3 ∧
                    errParse
                      (match tokTail Token.rparen rest3 with
                       | some rest4 => PRes.ok (Ast.call name args) rest4
                       | none => PRes.err (Err.parse ("Missing ')'"))) := by
                  intro args rest3 _
                  cases hrp : tokTail Token.rparen rest3 with
                  | some rest4 =>
                      exact ⟨(fun a r hr => by cases hr; exact (tokTail_suffix hrp).2),
                             (fun e he => nomatch he)⟩
                  | none =>
                      exact ⟨(fun a r hr => nomatch hr), (fun e he => by cases he; rfl)⟩
                have hAP := chainArgsP_progress
                  (fun args rest3 =>
                    match tokTail Token.rparen rest3 with
                    | some rest4 => PRes.ok (Ast.call name args) rest4
                    | none => PRes.err (Err.parse ("Missing ')'")))
                  (ihArgs rest2).1 (ihArgs rest2).2 hg
                constructor
                · intro a r hr
                  have hs := hAP.1 a r hr
                  constructor
                  · exact hs.trans (hlpS.2.trans (hts ▸ List.suffix_cons _ _))
                  · have hl1 := hs.length_le
                    have hl2 := hlpS.1
                    rw [hts]
                    simp
                    omega
                · exact hAP.2
            | none =>
                by_cases hf : isFunction name
                · rw [if_pos hf]
                  have hw : okStrict (parseUnary n rest) ts := by
                    intro a r hr
                    obtain ⟨h1, h2⟩ := (ihUn rest).1 a r hr
                    rw [hts]
                    exact ⟨h1.trans (List.suffix_cons _ _), by simp; omega⟩
                  exact ⟨mapRes_okStrict hw, mapRes_errParse (ihUn rest).2⟩
                · rw [if_neg hf]
                  constructor
                  · intro a r hr
                    rw [resolveConstOrVar_ok hr, hts]
                    exact ⟨List.suffix_cons _ _, by simp⟩
                  · exact resolveConstOrVar_err name rest
        | lpar rest =>
            have hts := primClass_lpar hpc
            dsimp only []
            have hg : ∀ inner rest2,
                parseExpr n rest = PRes.ok inner rest2 →
                okSuffix
                  (match tokTail Token.rparen rest2 with
                   | some rest3 => PRes.ok inner rest3
                   | none => PRes.err (Err.parse ("Missing ')'"))) rest2 ∧
                errParse
                  (match tokTail Token.rparen rest2 with
                   | some rest3 => PRes.ok inner rest3
                   | none => PRes.err (Err.parse ("Missing ')'"))) := by
              intro inner rest2 _
              cases hrp : tokTail Token.rparen rest2 with
              | some rest3 =>
                  exact ⟨(fun a r hr => by cases hr; exact (tokTail_suffix hrp).2),
                         (fun e he => nomatch he)⟩
              | none =>
                  exact ⟨(fun a r hr => nomatch hr), (fun e he => by cases he; rfl)⟩
            have hc := chainRes_progress
              (fun inner rest2 =>
                match tokTail Token.rparen rest2 with
                | some rest3 => PRes.ok inner rest3
                | none => PRes.err (Err.parse ("Missing ')'")))
              (ihExpr rest).1 (ihExpr rest).2 hg
            constructor
            · intro a r hr
              obtain ⟨h1, h2⟩ := hc.1 a r hr
              rw [hts]
              exact ⟨h1.trans (List.suffix_cons _ _), by simp; omega⟩
            · exact hc.2
        | otherTok =>
            exact ⟨(fun a r hr => nomatch hr), (fun e he => by cases he; rfl)⟩
      have hArgs : ∀ ts, argsSuffix (parseArgs (n + 1) ts) ts ∧
          argsErrParse (parseArgs (n + 1) ts) := by
        intro ts
        simp only [parseArgs]
        cases hrt : tokTail Token.rparen ts with
        | some rest =>
            exact ⟨(fun args r hr => by cases hr; exact List.suffix_rfl),
                   (fun e he => nomatch he)⟩
        | none =>
            exact chainPA_progress (fun a rest => argsLoop n [a] rest)
              (ihExpr ts).1 (ihExpr ts).2
              (fun a r _ => ihArgsL [a] r)
      have hArgsL : ∀ acc ts, argsSuffix (argsLoop (n + 1) acc ts) ts ∧
          argsErrParse (argsLoop (n + 1) acc ts) := by
        intro acc ts
        simp only [argsLoop]
        cases hct : tokTail Token.comma ts with
        | none =>
            exact ⟨(fun args r hr => by cases hr; exact List.suffix_rfl),
                   (fun e he => nomatch he)⟩
        | some rest =>
            have hc := chainPA_progress
              (fun a rest2 => argsLoop n (acc ++ [a]) rest2)
              (ihExpr rest).1 (ihExpr rest).2
              (fun a r _ => ihArgsL (acc ++ [a]) r)
            exact ⟨(fun args r hr => (hc.1 args r hr).trans (tokTail_suffix hct).2),
                   hc.2⟩
      have hTerm : ∀ ts, okStrict (parseTerm (n + 1) ts) ts ∧
          errParse (parseTerm (n + 1) ts) :=
        fun ts => chainRes_progress (termLoop n) (ihPow ts).1 (ihPow ts).2
          (fun l r _ => ihTermL l r)
      have hAdd : ∀ ts, okStrict (parseAdd (n + 1) ts) ts ∧
          errParse (parseAdd (n + 1) ts) :=
        fun ts => chainRes_progress (addLoop n) (ihTerm ts).1 (ihTerm ts).2
          (fun l r _ => ihAddL l r)
      have hCmp : ∀ ts, okStrict (parseComparison (n + 1) ts) ts ∧
          errParse (parseComparison (n + 1) ts) :=
        fun ts => chainRes_progress (cmpLoop n) (ihAdd ts).1 (ihAdd ts).2
          (fun l r _ => ihCmpL l r)
      have hAnd : ∀ ts, okStrict (parseAnd (n + 1) ts) ts ∧
          errParse (parseAnd (n + 1) ts) :=
        fun ts => chainRes_progress (andLoop n) (ihCmp ts).1 (ihCmp ts).2
          (fun l r _ => ihAndL l r)
      have hOr : ∀ ts, okStrict (parseOr (n + 1) ts) ts ∧
          errParse (parseOr (n + 1) ts) :=
        fun ts => chainRes_progress (orLoop n) (ihAnd ts).1 (ihAnd ts).2
          (fun l r _ => ihOrL l r)
      have hExpr : ∀ ts, okStrict (parseExpr (n + 1) ts) ts ∧
          errParse (parseExpr (n + 1) ts) := fun ts => ihOr ts
      exact ⟨hExpr, hOr, hOrL, hAnd, hAndL, hCmp, hCmpL, hAdd, hAddL, hTerm,
        hTermL, hPow, hUn, hPrim, hArgs, hArgsL⟩

theorem chainRes_ne_noFuel {sub : PRes} {f : Ast → List Token → PRes}
    (hsub : sub ≠ PRes.noFuel)
    (hf : ∀ a r, sub = PRes.ok a r → f a r ≠ PRes.noFuel) :
    chainRes sub f ≠ PRes.noFuel := by
  cases sub with
  | ok a r => exact hf a r rfl
  | err e => exact fun h => nomatch h
  | noFuel => exact absurd rfl hsub

theorem mapRes_ne_noFuel {g : Ast → Ast} {sub : PRes} (hsub : sub ≠ PRes.noFuel) :
    mapRes g sub ≠ PRes.noFuel := by
  cases sub with
  | ok a r => exact fun h => nomatch h
  | err e => exact fun h => nomatch h
  | noFuel => exact absurd rfl hsub

theorem chainArgsP_ne_noFuel {sub : PArgs} {f : List Ast → List Token → PRes}
    (hsub : sub ≠ PArgs.noFuel)
    (hf : ∀ a r, sub = PArgs.ok a r → f a r ≠ PRes.noFuel) :
    chainArgsP sub f ≠ PRes.noFuel := by
  cases sub with
  | ok a r => exact hf a r rfl
  | err e => exact fun h => nomatch h
  | noFuel => exact absurd rfl hsub

theorem chainPA_ne_noFuel {sub : PRes} {f : Ast → List Token → PArgs}
    (hsub : sub ≠ PRes.noFuel)
    (hf : ∀ a r, sub = PRes.ok a r → f a r ≠ PArgs.noFuel) :
    chainPA sub f ≠ PArgs.noFuel := by
  cases sub with
  | ok a r => exact hf a r rfl
  | err e => exact fun h => nomatch h
  | noFuel => exact absurd rfl hsub

theorem resolveConstOrVar_ne_noFuel (name : String) (rest : List Token) :
    resolveConstOrVar name rest ≠ PRes.noFuel := by
  unfold resolveConstOrVar
  repeat' split
  all_goals exact fun h => nomatch h

set_option maxHeartbeats 1600000 in
/-- The recursion budget `16 * length + 16` used by `parseTokens` never runs
out: ranked sufficiency bounds for every parsing function. -/
theorem parseSufficient : ∀ fuel : Nat,
    (∀ ts, 16 * ts.length + 14 ≤ fuel → parseExpr fuel ts ≠ PRes.noFuel) ∧
    (∀ ts, 16 * ts.length + 12 ≤ fuel → parseOr fuel ts ≠ PRes.noFuel) ∧
    (∀ left ts, 16 * ts.length + 13 ≤ fuel → orLoop fuel left ts ≠ PRes.noFuel) ∧
    (∀ ts, 16 * ts.length + 10 ≤ fuel → parseAnd fuel ts ≠ PRes.noFuel) ∧
    (∀ left ts, 16 * ts.length + 11 ≤ fuel → andLoop fuel left ts ≠ PRes.noFuel) ∧
    (∀ ts, 16 * ts.length + 8 ≤ fuel → parseComparison fuel ts ≠ PRes.noFuel) ∧
    (∀ left ts, 16 * ts.length + 9 ≤ fuel → cmpLoop fuel left ts ≠ PRes.noFuel) ∧
    (∀ ts, 16 * ts.length + 6 ≤ fuel → parseAdd fuel ts ≠ PRes.noFuel) ∧
    (∀ left ts, 16 * ts.length + 7 ≤ fuel → addLoop fuel left ts ≠ PRes.noFuel) ∧
    (∀ ts, 16 * ts.length + 4 ≤ fuel → parseTerm fuel ts ≠ PRes.noFuel) ∧
    (∀ left ts, 16 * ts.length + 5 ≤ fuel → termLoop fuel left ts ≠ PRes.noFuel) ∧
    (∀ ts, 16 * ts.length + 3 ≤ fuel → parsePower fuel ts ≠ PRes.noFuel) ∧
    (∀ ts, 16 * ts.length + 2 ≤ fuel → parseUnary fuel ts ≠ PRes.noFuel) ∧
    (∀ ts, 16 * ts.length + 1 ≤ fuel → parsePrimary fuel ts ≠ PRes.noFuel) ∧
    (∀ ts, 16 * ts.length + 15 ≤ fuel → parseArgs fuel ts ≠ PArgs.noFuel) ∧
    (∀ acc ts, 16 * ts.length + 16 ≤ fuel → argsLoop fuel acc ts ≠ PArgs.noFuel) := by
  intro fuel
  induction fuel with
  | zero =>
      refine ⟨?_, ?_, ?_, ?_, ?_, ?_, ?_, ?_, ?_, ?_, ?_, ?_, ?_, ?_, ?_, ?_⟩ <;>
        intros <;> omega
  | succ n ih =>
      obtain ⟨nExpr, nOr, nOrL, nAnd, nAndL, nCmp, nCmpL, nAdd, nAddL,
        nTerm, nTermL, nPow, nUn, nPrim, nArgs, nArgsL⟩ := ih
      obtain ⟨pExpr, pOr, pOrL, pAnd, pAndL, pCmp, pCmpL, pAdd, pAddL,
        pTerm, pTermL, pPow, pUn, pPrim, pArgs, pArgsL⟩ := parseProgress n
      have loopNF :
          ∀ (opOf : Token → Option BinOp) (sub : Nat → List Token → PRes)
            (loop : Nat → Ast → List Token → PRes) (rl : Nat), 3 ≤ rl → rl ≤ 16 →
            (∀ ts, 16 * ts.length + (rl - 3) ≤ n → sub n ts ≠ PRes.noFuel) →
            (∀ ts, okStrict (sub n ts) ts) →
            (∀ left ts, 16 * ts.length + rl ≤ n → loop n left ts ≠ PRes.noFuel) →
            ∀ left ts, 16 * ts.length + rl ≤ n + 1 →
              (match opSplit opOf ts with
               | some (op, rest) =>
                   chainRes (sub n rest)
                     (fun right rest2 => loop n (Ast.binOp op left right) rest2)
               | none => PRes.ok left ts) ≠ PRes.noFuel := by
        intro opOf sub loop rl hrl3 hrl16 hsubNF hsubStrict hloopNF left ts hle
        cases hsp : opSplit opOf ts with
        | none => exact fun h => nomatch h
        | some pr =>
            obtain ⟨op, rest⟩ := pr
            have hlen := (opSplit_suffix hsp).1
            refine chainRes_ne_noFuel (hsubNF rest (by omega)) ?_
            intro a r hok
            have hstrict := (hsubStrict rest) a r hok
            exact hloopNF _ r (by have := hstrict.2; omega)
      have hOrL : ∀ left ts, 16 * ts.length + 13 ≤ n + 1 →
          orLoop (n + 1) left ts ≠ PRes.noFuel := by
        intro left ts hle
        simp only [orLoop]
        exact loopNF orOpOf parseAnd orLoop 13 (by omega) (by omega)
          (fun ts h => nAnd ts h) (fun ts => (pAnd ts).1) nOrL left ts hle
      have hAndL : ∀ left ts, 16 * ts.length + 11 ≤ n + 1 →
          andLoop (n + 1) left ts ≠ PRes.noFuel := by
        intro left ts hle
        simp only [andLoop]
        exact loopNF andOpOf parseComparison andLoop 11 (by omega) (by omega)
          (fun ts h => nCmp ts h) (fun ts => (pCmp ts).1) nAndL left ts hle
      have hCmpL : ∀ left ts, 16 * ts.length + 9 ≤ n + 1 →
          cmpLoop (n + 1) left ts ≠ PRes.noFuel := by
        intro left ts hle
        simp only [cmpLoop]
        exact loopNF cmpOpOf parseAdd cmpLoop 9 (by omega) (by omega)
          (fun ts h => nAdd ts h) (fun ts => (pAdd ts).1) nCmpL left ts hle
      have hAddL : ∀ left ts, 16 * ts.length + 7 ≤ n + 1 →
          addLoop (n + 1) left ts ≠ PRes.noFuel := by
        intro left ts hle
        simp only [addLoop]
        exact loopNF addOpOf parseTerm addLoop 7 (by omega) (by omega)
          (fun ts h => nTerm ts h) (fun ts => (pTerm ts).1) nAddL left ts hle
      have hTermL : ∀ left ts, 16 * ts.length + 5 ≤ n + 1 →
          termLoop (n + 1) left ts ≠ PRes.noFuel := by
        intro left ts hle
        simp only [termLoop]
        cases hsp : opSplit termOpOf ts with
        | some pr =>
            obtain ⟨op, rest⟩ := pr
            have hlen := (opSplit_suffix hsp).1
            refine chainRes_ne_noFuel (nPow rest (by omega)) ?_
            intro a r hok
            have hstrict := ((pPow rest).1) a r hok
            exact nTermL _ r (by have := hstrict.2; omega)
        | none =>
            by_cases him : headImplicitMul ts
            · rw [if_pos him]
              refine chainRes_ne_noFuel (nPow ts (by omega)) ?_
              intro a r hok
              have hstrict := ((pPow ts).1) a r hok
              exact nTermL _ r (by have := hstrict.2; omega)
            · rw [if_neg him]
              exact fun h => nomatch h
      have hPow : ∀ ts, 16 * ts.length + 3 ≤ n + 1 →
          parsePower (n + 1) ts ≠ PRes.noFuel := by
        intro ts hle
        simp only [parsePower]
        refine chainRes_ne_noFuel (nUn ts (by omega)) ?_
        intro base rest hok
        have hstrict := ((pUn ts).1) base rest hok
        cases hpt : tokTail Token.pow rest with
        | some rest2 =>
            have hlen := (tokTail_suffix hpt).1
            exact mapRes_ne_noFuel (nPow rest2 (by have := hstrict.2; omega))
        | none => exact fun h => nomatch h
      have hUn : ∀ ts, 16 * ts.length + 2 ≤ n + 1 →
          parseUnary (n + 1) ts ≠ PRes.noFuel := by
        intro ts hle
        match ts with
        | [] => exact nPrim [] (by simp at hle ⊢; omega)
        | t :: rest =>
          simp only [parseUnary]
          cases hpre : preOpOf t with
          | none => exact nPrim (t :: rest) (by simp at hle ⊢; omega)
          | some po =>
              have hr : 16 * rest.length + 1 ≤ n := by simp at hle; omega
              cases po with
              | negOp => exact mapRes_ne_noFuel (nPrim rest hr)
              | plusOp => exact nPrim rest hr
              | notOp => exact mapRes_ne_noFuel (nPrim rest hr)
      have hPrim : ∀ ts, 16 * ts.length + 1 ≤ n + 1 →
          parsePrimary (n + 1) ts ≠ PRes.noFuel := by
        intro ts hle
        simp only [parsePrimary]
        cases hpc : primClass ts with
        | endOfInput => exact fun h => nomatch h
        | num v rest => exact fun h => nomatch h
        | otherTok => exact fun h => nomatch h
        | idC name rest =>
            have hts := primClass_id hpc
            have hlts : ts.length = rest.length + 1 := by rw [hts]; simp
            dsimp only []
            cases hlp : tokTail Token.lparen rest with
            | some rest2 =>
                have hlen := (tokTail_suffix hlp).1
                refine chainArgsP_ne_noFuel (nArgs rest2 (by omega)) ?_
                intro args rest3 _
                cases hrp : tokTail Token.rparen rest3 with
                | some rest4 => exact fun h => nomatch h
                | none => exact fun h => nomatch h
            | none =>
                by_cases hf : isFunction name
                · rw [if_pos hf]
                  exact mapRes_ne_noFuel (nUn rest (by omega))
                · rw [if_neg hf]
                  exact resolveConstOrVar_ne_noFuel name rest
        | lpar rest =>
            have hts := primClass_lpar hpc
            have hlts : ts.length = rest.length + 1 := by rw [hts]; simp
            dsimp only []
            refine chainRes_ne_noFuel (nExpr rest (by omega)) ?_
            intro inner rest2 _
            cases hrp : tokTail Token.rparen rest2 with
            | some rest3 => exact fun h => nomatch h
            | none => exact fun h => nomatch h
      have hArgs : ∀ ts, 16 * ts.length + 15 ≤ n + 1 →
          parseArgs (n + 1) ts ≠ PArgs.noFuel := by
        intro ts hle
        simp only [parseArgs]
        cases hrt : tokTail Token.rparen ts with
        | some rest => exact fun h => nomatch h
        | none =>
            refine chainPA_ne_noFuel (nExpr ts (by omega)) ?_
            intro a r hok
            have hstrict := ((pExpr ts).1) a r hok
            exact nArgsL [a] r (by have := hstrict.2; omega)
      have hArgsL : ∀ acc ts, 16 * ts.length + 16 ≤ n + 1 →
          argsLoop (n + 1) acc ts ≠ PArgs.noFuel := by
        intro acc ts hle
        simp only [argsLoop]
        cases hct : tokTail Token.comma ts with
        | none => exact fun h => nomatch h
        | some rest =>
            have hlen := (tokTail_suffix hct).1
            refine chainPA_ne_noFuel (nExpr rest (by omega)) ?_
            intro a r hok
            have hstrict := ((pExpr rest).1) a r hok
            exact nArgsL (acc ++ [a]) r (by have := hstrict.2; omega)
      have hTerm : ∀ ts, 16 * ts.length + 4 ≤ n + 1 →
          parseTerm (n + 1) ts ≠ PRes.noFuel := by
        intro ts hle
        refine chainRes_ne_noFuel (nPow ts (by omega)) ?_
        intro a r hok
        have hstrict := ((pPow ts).1) a r hok
        exact nTermL _ r (by have := hstrict.2; omega)
      have hAdd : ∀ ts, 16 * ts.length + 6 ≤ n + 1 →
          parseAdd (n + 1) ts ≠ PRes.noFuel := by
        intro ts hle
        refine chainRes_ne_noFuel (nTerm ts (by omega)) ?_
        intro a r hok
        have hstrict := ((pTerm ts).1) a r hok
        exact nAddL _ r (by have := hstrict.2; omega)
      have hCmp : ∀ ts, 16 * ts.length + 8 ≤ n + 1 →
          parseComparison (n + 1) ts ≠ PRes.noFuel := by
        intro ts hle
        refine chainRes_ne_noFuel (nAdd ts (by omega)) ?_
        intro a r hok
        have hstrict := ((pAdd ts).1) a r hok
        exact nCmpL _ r (by have := hstrict.2; omega)
      have hAnd : ∀ ts, 16 * ts.length + 10 ≤ n + 1 →
          parseAnd (n + 1) ts ≠ PRes.noFuel := by
        intro ts hle
        refine chainRes_ne_noFuel (nCmp ts (by omega)) ?_
        intro a r hok
        have hstrict := ((pCmp ts).1) a r hok
        exact nAndL _ r (by have := hstrict.2; omega)
      have hOr : ∀ ts, 16 * ts.length + 12 ≤ n + 1 →
          parseOr (n + 1) ts ≠ PRes.noFuel := by
        intro ts hle
        refine chainRes_ne_noFuel (nAnd ts (by omega)) ?_
        intro a r hok
        have hstrict := ((pAnd ts).1) a r hok
        exact nOrL _ r (by have := hstrict.2; omega)
      have hExpr : ∀ ts, 16 * ts.length + 14 ≤ n + 1 →
          parseExpr (n + 1) ts ≠ PRes.noFuel := by
        intro ts hle
        exact nOr ts (by omega)
      exact ⟨hExpr, hOr, hOrL, hAnd, hAndL, hCmp, hCmpL, hAdd, hAddL, hTerm,
        hTermL, hPow, hUn, hPrim, hArgs, hArgsL⟩

/-- Recursion budget used by the total parser entry point. -/
def parseFuel (ts : List Token) : Nat := 16 * ts.length + 16

theorem parseExpr_ne_noFuel (ts : List Token) :
    parseExpr (parseFuel ts) ts ≠ PRes.noFuel :=
  (parseSufficient (parseFuel ts)).1 ts (by unfold parseFuel; omega)

/-- parser.rs `parse_str` lines 8-13 (after tokenizing): parse a full
expression and reject trailing tokens. -/
def parseTokens (ts : List Token) : XRes Ast :=
  match h : parseExpr (parseFuel ts) ts with
  | PRes.ok ast rest =>
      match rest with
      | [] => XRes.ok ast
      | _ => XRes.err (Err.parse ("Unexpected token after expression"))
  | PRes.err e => XRes.err e
  | PRes.noFuel => (parseExpr_ne_noFuel ts h).elim

/-- parser.rs `parse_str`: tokenize, parse, reject trailing input. -/
def parseStr (s : String) : XRes Ast :=
  match tokenize s with
  | XRes.ok ts => parseTokens ts
  | XRes.err e => XRes.err e

example : parseStr ("2^3^2") =
    XRes.ok (Ast.binOp BinOp.pow (Ast.number ⟨2, 0⟩)
      (Ast.binOp BinOp.pow (Ast.number ⟨3, 0⟩) (Ast.number ⟨2, 0⟩))) := rfl

example : parseStr ("3!^2") =
    XRes.err (Err.parse ("Unexpected token after expression")) := rfl

example : parseStr ("(3!)^2") =
    XRes.ok (Ast.binOp BinOp.pow (Ast.fact (Ast.number ⟨3, 0⟩))
      (Ast.number ⟨2, 0⟩)) := rfl

example : parseStr ("-1+2") =
    XRes.ok (Ast.binOp BinOp.add (Ast.unaryNeg (Ast.number ⟨1, 0⟩))
      (Ast.number ⟨2, 0⟩)) := rfl

example : parseStr ("f(f(2))") =
    XRes.ok (Ast.call ("f") [Ast.call ("f") [Ast.number ⟨2, 0⟩]]) := rfl

example : parseStr ("2x") =
    XRes.ok (Ast.binOp BinOp.mul (Ast.number ⟨2, 0⟩) (Ast.var ("x"))) := rfl

/-! ### A postfix factorial directly followed by `^` never parses (claim C10)

`keepK v ts` says the remaining input `ts` still ends with the marked
`Factorial, Pow` pair followed by `v` — either the whole pair is inside
`ts`, or exactly the `Pow` half remains (the factorial was consumed as a
postfix).  The induction below shows no parsing function ever consumes that
`Pow`. -/

def keepK (v ts : List Token) : Prop :=
  Token.factorial :: Token.pow :: v <:+ ts ∨ ts = Token.pow :: v

theorem keep_descend {v : List Token} {t : Token} {rest : List Token}
    (h : Token.factorial :: Token.pow :: v <:+ t :: rest)
    (hne : t ≠ Token.factorial) :
    Token.factorial :: Token.pow :: v <:+ rest := by
  rcases List.suffix_cons_iff.mp h with heq | hs
  · exact absurd (List.head_eq_of_cons_eq heq).symm hne
  · exact hs

theorem chainRes_ok_inv {sub : PRes} {f : Ast → List Token → PRes} {a : Ast}
    {rest : List Token} (h : chainRes sub f = PRes.ok a rest) :
    ∃ b r, sub = PRes.ok b r ∧ f b r = PRes.ok a rest := by
  cases sub with
  | ok b r => exact ⟨b, r, rfl, h⟩
  | err e => cases h
  | noFuel => cases h

theorem mapRes_ok_inv {g : Ast → Ast} {sub : PRes} {a : Ast} {rest : List Token}
    (h : mapRes g sub = PRes.ok a rest) :
    ∃ b, sub = PRes.ok b rest ∧ a = g b := by
  cases sub with
  | ok b r => cases h; exact ⟨b, rfl, rfl⟩
  | err e => cases h
  | noFuel => cases h

theorem chainArgsP_ok_inv {sub : PArgs} {f : List Ast → List Token → PRes} {a : Ast}
    {rest : List Token} (h : chainArgsP sub f = PRes.ok a rest) :
    ∃ args r, sub = PArgs.ok args r ∧ f args r = PRes.ok a rest := by
  cases sub with
  | ok args r => exact ⟨args, r, rfl, h⟩
  | err e => cases h
  | noFuel => cases h

theorem chainPA_ok_inv {sub : PRes} {f : Ast → List Token → PArgs} {args : List Ast}
    {rest : List Token} (h : chainPA sub f = PArgs.ok args rest) :
    ∃ b r, sub = PRes.ok b r ∧ f b r = PArgs.ok args rest := by
  cases sub with
  | ok b r => exact ⟨b, r, rfl, h⟩
  | err e => cases h
  | noFuel => cases h

theorem opSplit_some_shape {opOf : Token → Option BinOp} {ts rest : List Token}
    {op : BinOp} (h : opSplit opOf ts = some (op, rest)) :
    ∃ t, ts = t :: rest ∧ opOf t = some op := by
  match ts with
  | [] => cases h
  | t :: r =>
      simp only [opSplit] at h
      cases hop : opOf t with
      | some op' => rw [hop] at h; cases h; exact ⟨t, rfl, hop⟩
      | none => rw [hop] at h; cases h

theorem tokTail_some_shape {t : Token} {ts rest : List Token}
    (h : tokTail t ts = some rest) : ts = t :: rest := by
  match ts with
  | [] => cases h
  | t' :: r =>
      simp only [tokTail] at h
      split at h
      · cases h; rename_i heq; rw [heq]
      · cases h

theorem factLoop_keep (v : List Token) :
    ∀ ts a, keepK v ts → keepK v (factLoop a ts).2 := by
  intro ts
  induction ts with
  | nil => intro a hK; exact hK
  | cons t rest ih =>
      intro a hK
      by_cases hft : t = Token.factorial
      · subst hft
        have hK' : keepK v rest := by
          rcases hK with hs | heq
          · rcases List.suffix_cons_iff.mp hs with heq2 | hs2
            · exact Or.inr (List.tail_eq_of_cons_eq heq2).symm
            · exact Or.inl hs2
          · cases heq
        simpa only [factLoop] using ih (Ast.fact a) hK'
      · have : factLoop a (t :: rest) = (a, t :: rest) := by
          cases t <;> simp only [factLoop] <;> first | rfl | exact absurd rfl hft
        rw [this]
        exact hK

set_option maxHeartbeats 1600000 in
/-- No parsing function ever consumes the `Pow` of a `Factorial, Pow` pair:
if the input still ends with the marked pair (`keepK`), so does the rest
after any successful parse; `parse_unary`/`parse_primary` even leave the
whole pair in place. -/
theorem parseKeep (v : List Token) : ∀ fuel : Nat,
    (∀ ts a rest, keepK v ts → parseExpr fuel ts = PRes.ok a rest → keepK v rest) ∧
    (∀ ts a rest, keepK v ts → parseOr fuel ts = PRes.ok a rest → keepK v rest) ∧
    (∀ left ts a rest, keepK v ts → orLoop fuel left ts = PRes.ok a rest →
      keepK v rest) ∧
    (∀ ts a rest, keepK v ts → parseAnd fuel ts = PRes.ok a rest → keepK v rest) ∧
    (∀ left ts a rest, keepK v ts → andLoop fuel left ts = PRes.ok a rest →
      keepK v rest) ∧
    (∀ ts a rest, keepK v ts → parseComparison fuel ts = PRes.ok a rest →
      keepK v rest) ∧
    (∀ left ts a rest, keepK v ts → cmpLoop fuel left ts = PRes.ok a rest →
      keepK v rest) ∧
    (∀ ts a rest, keepK v ts → parseAdd fuel ts = PRes.ok a rest → keepK v rest) ∧
    (∀ left ts a rest, keepK v ts → addLoop fuel left ts = PRes.ok a rest →
      keepK v rest) ∧
    (∀ ts a rest, keepK v ts → parseTerm fuel ts = PRes.ok a rest → keepK v rest) ∧
    (∀ left ts a rest, keepK v ts → termLoop fuel left ts = PRes.ok a rest →
      keepK v rest) ∧
    (∀ ts a rest, keepK v ts → parsePower fuel ts = PRes.ok a rest → keepK v rest) ∧
    (∀ ts a rest, keepK v ts → parseUnary fuel ts = PRes.ok a rest →
      Token.factorial :: Token.pow :: v <:+ rest) ∧
    (∀ ts a rest, keepK v ts → parsePrimary fuel ts = PRes.ok a rest →
      Token.factorial :: Token.pow :: v <:+ rest) ∧
    (∀ ts args rest, keepK v ts → parseArgs fuel ts = PArgs.ok args rest →
      keepK v rest) ∧
    (∀ acc ts args rest, keepK v ts → argsLoop fuel acc ts = PArgs.ok args rest →
      keepK v rest) := by
  intro fuel
  induction fuel with
  | zero =>
      refine ⟨?_, ?_, ?_, ?_, ?_, ?_, ?_, ?_, ?_, ?_, ?_, ?_, ?_, ?_, ?_, ?_⟩ <;>
        (intros; rename_i h; exact absurd h (fun hh => nomatch hh))
  | succ n ih =>
      obtain ⟨ihExpr, ihOr, ihOrL, ihAnd, ihAndL, ihCmp, ihCmpL, ihAdd, ihAddL,
        ihTerm, ihTermL, ihPow, ihUn, ihPrim, ihArgs, ihArgsL⟩ := ih
      -- the four operator loops share one argument
      have loopKeep :
          ∀ (opOf : Token → Option BinOp) (sub : Nat → List Token → PRes)
            (loop : Nat → Ast → List Token → PRes),
            opOf Token.pow = none → opOf Token.factorial = none →
            (∀ ts a rest, keepK v ts → sub n ts = PRes.ok a rest → keepK v rest) →
            (∀ left ts a rest, keepK v ts → loop n left ts = PRes.ok a rest →
              keepK v rest) →
            ∀ left ts a rest, keepK v ts →
              (match opSplit opOf ts with
               | some (op, r1) =>
                   chainRes (sub n r1)
                     (fun right rest2 => loop n (Ast.binOp op left right) rest2)
               | none => PRes.ok left ts) = PRes.ok a rest → keepK v rest := by
        intro opOf sub loop hOpPow hOpFact hsubK hloopK left ts a rest hK hok
        cases hsp : opSplit opOf ts with
        | none =>
            rw [hsp] at hok
            cases hok
            exact hK
        | some pr =>
            obtain ⟨op, r1⟩ := pr
            rw [hsp] at hok
            obtain ⟨t, hts, hopt⟩ := opSplit_some_shape hsp
            have hK1 : keepK v r1 := by
              rcases hK with hs | heq
              · rw [hts] at hs
                refine Or.inl (keep_descend hs ?_)
                intro hft
                rw [hft, hOpFact] at hopt
                cases hopt
              · rw [heq] at hts
                have ht : t = Token.pow := (List.head_eq_of_cons_eq hts.symm)
                rw [ht, hOpPow] at hopt
                cases hopt
            obtain ⟨b, r2, hsub, hloop⟩ := chainRes_ok_inv hok
            exact hloopK _ r2 a rest (hsubK r1 b r2 hK1 hsub) hloop
      have hOrL : ∀ left ts a rest, keepK v ts →
          orLoop (n + 1) left ts = PRes.ok a rest → keepK v rest := by
        intro left ts a rest hK hok
        simp only [orLoop] at hok
        exact loopKeep orOpOf parseAnd orLoop rfl rfl ihAnd ihOrL left ts a rest hK hok
      have hAndL : ∀ left ts a rest, keepK v ts →
          andLoop (n + 1) left ts = PRes.ok a rest → keepK v rest := by
        intro left ts a rest hK hok
        simp only [andLoop] at hok
        exact loopKeep andOpOf parseComparison andLoop rfl rfl ihCmp ihAndL
          left ts a rest hK hok
      have hCmpL : ∀ left ts a rest, keepK v ts →
          cmpLoop (n + 1) left ts = PRes.ok a rest → keepK v rest := by
        intro left ts a rest hK hok
        simp only [cmpLoop] at hok
        exact loopKeep cmpOpOf parseAdd cmpLoop rfl rfl ihAdd ihCmpL
          left ts a rest hK hok
      have hAddL : ∀ left ts a rest, keepK v ts →
          addLoop (n + 1) left ts = PRes.ok a rest → keepK v rest := by
        intro left ts a rest hK hok
        simp only [addLoop] at hok
        exact loopKeep addOpOf parseTerm addLoop rfl rfl ihTerm ihAddL
          left ts a rest hK hok
      have hTermL : ∀ left ts a rest, keepK v ts →
          termLoop (n + 1) left ts = PRes.ok a rest → keepK v rest := by
        intro left ts a rest hK hok
        simp only [termLoop] at hok
        cases hsp : opSplit termOpOf ts with
        | some pr =>
            obtain ⟨op, r1⟩ := pr
            rw [hsp] at hok
            obtain ⟨t, hts, hopt⟩ := opSplit_some_shape hsp
            have hK1 : keepK v r1 := by
              rcases hK with hs | heq
              · rw [hts] at hs
                refine Or.inl (keep_descend hs ?_)
                intro hft
                rw [hft] at hopt
                cases hopt
              · rw [heq] at hts
                have ht : t = Token.pow := (List.head_eq_of_cons_eq hts.symm)
                rw [ht] at hopt
                cases hopt
            obtain ⟨b, r2, hsub, hloop⟩ := chainRes_ok_inv hok
            exact ihTermL _ r2 a rest (ihPow r1 b r2 hK1 hsub) hloop
        | none =>
            rw [hsp] at hok
            by_cases him : headImplicitMul ts
            · rw [if_pos him] at hok
              obtain ⟨b, r2, hsub, hloop⟩ := chainRes_ok_inv hok
              exact ihTermL _ r2 a rest (ihPow ts b r2 hK hsub) hloop
            · rw [if_neg him] at hok
              cases hok
              exact hK
      have hPow : ∀ ts a rest, keepK v ts →
          parsePower (n + 1) ts = PRes.ok a rest → keepK v rest := by
        intro ts a rest hK hok
        simp only [parsePower] at hok
        obtain ⟨base, r0, hun, hf⟩ := chainRes_ok_inv hok
        have hpair := ihUn ts base r0 hK hun
        cases hpt : tokTail Token.pow r0 with
        | some rest2 =>
            rw [hpt] at hf
            have hr0 : r0 = Token.pow :: rest2 := tokTail_some_shape hpt
            have hK2 : keepK v rest2 := by
              rw [hr0] at hpair
              refine Or.inl (keep_descend hpair ?_)
              intro hft
              cases hft
            obtain ⟨b, hsub, _⟩ := mapRes_ok_inv hf
            exact ihPow rest2 b rest hK2 hsub
        | none =>
            rw [hpt] at hf
            cases hf
            exact factLoop_keep v r0 base (Or.inl hpair)
      have hUn : ∀ ts a rest, keepK v ts →
          parseUnary (n + 1) ts = PRes.ok a rest →
          Token.factorial :: Token.pow :: v <:+ rest := by
        intro ts a rest hK hok
        match ts, hok with
        | [], hok =>
            exact ihPrim [] a rest hK hok
        | t :: r1, hok =>
          simp only [parseUnary] at hok
          cases hpre : preOpOf t with
          | none =>
              rw [hpre] at hok
              exact ihPrim (t :: r1) a rest hK hok
          | some po =>
              rw [hpre] at hok
              have hK1 : keepK v r1 := by
                rcases hK with hs | heq
                · rcases List.suffix_cons_iff.mp hs with heq2 | hs2
                  · exact Or.inr (List.tail_eq_of_cons_eq heq2).symm
                  · exact Or.inl hs2
                · have ht : t = Token.pow := (List.head_eq_of_cons_eq heq)
                  rw [ht] at hpre
                  cases hpre
              cases po with
              | negOp =>
                  obtain ⟨b, hsub, _⟩ := mapRes_ok_inv hok
                  exact ihPrim r1 b rest hK1 hsub
              | plusOp => exact ihPrim r1 a rest hK1 hok
              | notOp =>
                  obtain ⟨b, hsub, _⟩ := mapRes_ok_inv hok
                  exact ihPrim r1 b rest hK1 hsub
      have hPrim : ∀ ts a rest, keepK v ts →
          parsePrimary (n + 1) ts = PRes.ok a rest →
          Token.factorial :: Token.pow :: v <:+ rest := by
        intro ts a rest hK hok
        simp only [parsePrimary] at hok
        cases hpc : primClass ts with
        | endOfInput => rw [hpc] at hok; cases hok
        | otherTok => rw [hpc] at hok; cases hok
        | num v' r1 =>
            rw [hpc] at hok
            have hts := primClass_num hpc
            cases hok
            rcases hK with hs | heq
            · rw [hts] at hs
              exact keep_descend hs (fun hft => nomatch hft)
            · rw [heq] at hts
              simp at hts
        | idC name r1 =>
            rw [hpc] at hok
            have hts := primClass_id hpc
            have hpair : Token.factorial :: Token.pow :: v <:+ r1 := by
              rcases hK with hs | heq
              · rw [hts] at hs
                exact keep_descend hs (fun hft => nomatch hft)
              · rw [heq] at hts
                simp at hts
            dsimp only [] at hok
            cases hlp : tokTail Token.lparen r1 with
            | some rest2 =>
                rw [hlp] at hok
                have hr1 : r1 = Token.lparen :: rest2 := tokTail_some_shape hlp
                have hK2 : keepK v rest2 := by
                  rw [hr1] at hpair
                  exact Or.inl (keep_descend hpair (fun hft => nomatch hft))
                obtain ⟨args, r3, hargs, hg⟩ := chainArgsP_ok_inv hok
                have hK3 := ihArgs rest2 args r3 hK2 hargs
                cases hrp : tokTail Token.rparen r3 with
                | some rest4 =>
                    rw [hrp] at hg
                    have hr3 : r3 = Token.rparen :: rest4 := tokTail_some_shape hrp
                    cases hg
                    rcases hK3 with hs | heq
                    · rw [hr3] at hs
                      exact keep_descend hs (fun hft => nomatch hft)
                    · rw [heq] at hr3
                      simp at hr3
                | none => rw [hrp] at hg; cases hg
            | none =>
                rw [hlp] at hok
                by_cases hf : isFunction name
                · rw [if_pos hf] at hok
                  obtain ⟨b, hsub, _⟩ := mapRes_ok_inv hok
                  exact ihUn r1 b rest (Or.inl hpair) hsub
                · rw [if_neg hf] at hok
                  rw [resolveConstOrVar_ok hok]
                  exact hpair
        | lpar r1 =>
            rw [hpc] at hok
            have hts := primClass_lpar hpc
            have hpair : Token.factorial :: Token.pow :: v <:+ r1 := by
              rcases hK with hs | heq
              · rw [hts] at hs
                exact keep_descend hs (fun hft => nomatch hft)
              · rw [heq] at hts
                simp at hts
            dsimp only [] at hok
            obtain ⟨inner, r2, hsub, hg⟩ := chainRes_ok_inv hok
            have hK2 := ihExpr r1 inner r2 (Or.inl hpair) hsub
            cases hrp : tokTail Token.rparen r2 with
            | some rest3 =>
                rw [hrp] at hg
                have hr2 : r2 = Token.rparen :: rest3 := tokTail_some_shape hrp
                cases hg
                rcases hK2 with hs | heq
                · rw [hr2] at hs
                  exact keep_descend hs (fun hft => nomatch hft)
                · rw [heq] at hr2
                  simp at hr2
            | none => rw [hrp] at hg; cases hg
      have hArgs : ∀ ts args rest, keepK v ts →
          parseArgs (n + 1) ts = PArgs.ok args rest → keepK v rest := by
        intro ts args rest hK hok
        simp only [parseArgs] at hok
        cases hrt : tokTail Token.rparen ts with
        | some r1 =>
            rw [hrt] at hok
            cases hok
            exact hK
        | none =>
            rw [hrt] at hok
            obtain ⟨b, r1, hsub, hloop⟩ := chainPA_ok_inv hok
            exact ihArgsL [b] r1 args rest (ihExpr ts b r1 hK hsub) hloop
      have hArgsL : ∀ acc ts args rest, keepK v ts →
          argsLoop (n + 1) acc ts = PArgs.ok args rest → keepK v rest := by
        intro acc ts args rest hK hok
        simp only [argsLoop] at hok
        cases hct : tokTail Token.comma ts with
        | none =>
            rw [hct] at hok
            cases hok
            exact hK
        | some r1 =>
            rw [hct] at hok
            have hts : ts = Token.comma :: r1 := tokTail_some_shape hct
            have hK1 : keepK v r1 := by
              rcases hK with hs | heq
              · rw [hts] at hs
                exact Or.inl (keep_descend hs (fun hft => nomatch hft))
              · rw [heq] at hts
                simp at hts
            obtain ⟨b, r2, hsub, hloop⟩ := chainPA_ok_inv hok
            exact ihArgsL (acc ++ [b]) r2 args rest (ihExpr r1 b r2 hK1 hsub) hloop
      have hChain : ∀ (sub : Nat → List Token → PRes)
          (loop : Nat → Ast → List Token → PRes),
          (∀ ts a rest, keepK v ts → sub n ts = PRes.ok a rest → keepK v rest) →
          (∀ left ts a rest, keepK v ts → loop n left ts = PRes.ok a rest →
            keepK v rest) →
          ∀ ts a rest, keepK v ts →
            chainRes (sub n ts) (loop n) = PRes.ok a rest → keepK v rest := by
        intro sub loop hsubK hloopK ts a rest hK hok
        obtain ⟨b, r1, hsub, hloop⟩ := chainRes_ok_inv hok
        exact hloopK b r1 a rest (hsubK ts b r1 hK hsub) hloop
      have hTerm : ∀ ts a rest, keepK v ts →
          parseTerm (n + 1) ts = PRes.ok a rest → keepK v rest := by
        intro ts a rest hK hok
        have hPowK : ∀ ts a rest, keepK v ts → parsePower n ts = PRes.ok a rest →
            keepK v rest := ihPow
        exact hChain parsePower termLoop hPowK ihTermL ts a rest hK hok
      have hAdd : ∀ ts a rest, keepK v ts →
          parseAdd (n + 1) ts = PRes.ok a rest → keepK v rest :=
        fun ts a rest hK hok => hChain parseTerm addLoop ihTerm ihAddL ts a rest hK hok
      have hCmp : ∀ ts a rest, keepK v ts →
          parseComparison (n + 1) ts = PRes.ok a rest → keepK v rest :=
        fun ts a rest hK hok => hChain parseAdd cmpLoop ihAdd ihCmpL ts a rest hK hok
      have hAnd : ∀ ts a rest, keepK v ts →
          parseAnd (n + 1) ts = PRes.ok a rest → keepK v rest :=
        fun ts a rest hK hok =>
          hChain parseComparison andLoop ihCmp ihAndL ts a rest hK hok
      have hOr : ∀ ts a rest, keepK v ts →
          parseOr (n + 1) ts = PRes.ok a rest → keepK v rest :=
        fun ts a rest hK hok => hChain parseAnd orLoop ihAnd ihOrL ts a rest hK hok
      have hExpr : ∀ ts a rest, keepK v ts →
          parseExpr (n + 1) ts = PRes.ok a rest → keepK v rest :=
        fun ts a rest hK hok => ihOr ts a rest hK hok
      exact ⟨hExpr, hOr, hOrL, hAnd, hAndL, hCmp, hCmpL, hAdd, hAddL, hTerm,
        hTermL, hPow, hUn, hPrim, hArgs, hArgsL⟩

/-! ## Complex kernel (src/core/src/evaluator/cx.rs)

f64 values are idealised as exact reals; `Real.exp`, `Real.log`,
`Real.sqrt`, trigonometric functions and `atan2` (as `Complex.arg`) stand
for the f64 math routines. -/

/-- Complex scalar: a pair of (idealised) f64s. -/
structure Cx where
  re : ℝ
  im : ℝ

def Cx.real (re : ℝ) : Cx := ⟨re, 0⟩

/-- `is_real`: the load-bearing `|im| < 1e-12` test. -/
def Cx.isReal (z : Cx) : Prop := |z.im| < 1e-12

def Cx.add (z w : Cx) : Cx := ⟨z.re + w.re, z.im + w.im⟩

def Cx.sub (z w : Cx) : Cx := ⟨z.re - w.re, z.im - w.im⟩

def Cx.mul (z w : Cx) : Cx :=
  ⟨z.re * w.re - z.im * w.im, z.re * w.im + z.im * w.re⟩

open scoped Classical in
noncomputable def Cx.div (z w : Cx) : XRes Cx :=
  if w.re * w.re + w.im * w.im = 0 then
    XRes.err (Err.domain ("Division by zero"))
  else
    XRes.ok ⟨(z.re * w.re + z.im * w.im) / (w.re * w.re + w.im * w.im),
             (z.im * w.re - z.re * w.im) / (w.re * w.re + w.im * w.im)⟩

def Cx.neg (z : Cx) : Cx := ⟨-z.re, -z.im⟩

noncomputable def Cx.absVal (z : Cx) : ℝ := Real.sqrt (z.re * z.re + z.im * z.im)

/-- `atan2(y, x)` with the principal value in `(-π, π]`, as computed by the
source after it normalises `-0.0` to `+0.0` (a no-op over exact reals). -/
noncomputable def atan2 (y x : ℝ) : ℝ := Complex.arg ⟨x, y⟩

noncomputable def Cx.arg (z : Cx) : ℝ := atan2 z.im z.re

open scoped Classical in
noncomputable def Cx.ln (z : Cx) : XRes Cx :=
  if z.absVal = 0 then XRes.err (Err.domain ("ln undefined for 0"))
  else XRes.ok ⟨Real.log z.absVal, z.arg⟩

noncomputable def Cx.exp (z : Cx) : Cx :=
  ⟨Real.exp z.re * Real.cos z.im, Real.exp z.re * Real.sin z.im⟩

open scoped Classical in
noncomputable def Cx.pow (z exponent : Cx) : XRes Cx :=
  if z.re = 0 ∧ z.im = 0 then
    if exponent.re > 0 then XRes.ok (Cx.real 0)
    else XRes.err (Err.domain ("0^x undefined for x≤0"))
  else
    match z.ln with
    | XRes.ok l => XRes.ok ((l.mul exponent).exp)
    | XRes.err e => XRes.err e

noncomputable def Cx.sqrtC (z : Cx) : Cx :=
  ⟨Real.sqrt z.absVal * Real.cos (z.arg / 2),
   Real.sqrt z.absVal * Real.sin (z.arg / 2)⟩

/-! ## Angle modes (src/core/src/angle_mode.rs) -/

inductive AngleMode where
  | deg
  | rad
  | grad
deriving DecidableEq, Repr

noncomputable def AngleMode.toRadians (m : AngleMode) (value : ℝ) : ℝ :=
  match m with
  | AngleMode.deg => value * (Real.pi / 180)
  | AngleMode.rad => value
  | AngleMode.grad => value * Real.pi / 200

noncomputable def AngleMode.fromRadians (m : AngleMode) (value : ℝ) : ℝ :=
  match m with
  | AngleMode.deg => value * (180 / Real.pi)
  | AngleMode.rad => value
  | AngleMode.grad => value * 200 / Real.pi

/-! ## Rust f64 primitives used by the evaluator, over exact reals -/

open scoped Classical in
/-- `f64::trunc`: round toward zero. -/
noncomputable def rustTrunc (x : ℝ) : ℝ := if x < 0 then -(⌊-x⌋ : ℤ) else (⌊x⌋ : ℤ)

/-- `f64::fract`: `x - x.trunc()` (sign-preserving). -/
noncomputable def rustFract (x : ℝ) : ℝ := x - rustTrunc x

open scoped Classical in
/-- `f64::round`: half away from zero. -/
noncomputable def rustRound (x : ℝ) : ℝ :=
  if x < 0 then -(⌊-x + 1 / 2⌋ : ℤ) else (⌊x + 1 / 2⌋ : ℤ)

open scoped Classical in
/-- `f64::signum` on exact reals: `1.0` for positives and (positive) zero,
`-1.0` for negatives.  Exact reals have no `-0.0`; the signed-zero
behaviour the source inherits from the sign bit is modelled separately at
the end of the file (claim C9). -/
noncomputable def rustSignum (x : ℝ) : ℝ := if x < 0 then -1 else 1

/-- `%` on f64: remainder with the dividend's sign, `a - b * trunc (a / b)`. -/
noncomputable def rustFmod (a b : ℝ) : ℝ := a - b * rustTrunc (a / b)

/-- Stand-in for `f64::INFINITY`, which has no exact-real counterpart: an
unspecified real, so no proof can depend on the value of this branch. -/
noncomputable def f64Inf : ℝ := Classical.choose (⟨0, trivial⟩ : ∃ _ : ℝ, True)

/-! ## Factorial (src/core/src/evaluator/factorial.rs) -/

open scoped Classical in
/-- factorial.rs: guard, the `n > 170` overflow early-out, then the
iterative product `2 * 3 * ... * n`, which over exact reals equals `⌊n⌋!`
(the guard guarantees `n` is a non-negative integer; binary rounding of the
partial products is not modelled). -/
noncomputable def factorial (n : ℝ) : XRes ℝ :=
  if n < 0 ∨ rustFract n ≠ 0 then
    XRes.err (Err.domain ("Factorial only defined for non-negative integers"))
  else if n > 170 then XRes.ok f64Inf
  else XRes.ok (Nat.factorial ⌊n⌋.toNat : ℝ)

def XRes.bind {α β : Type} : XRes α → (α → XRes β) → XRes β
  | XRes.ok a, f => f a
  | XRes.err e, _ => XRes.err e

def XRes.map {α β : Type} (f : α → β) : XRes α → XRes β
  | XRes.ok a => XRes.ok (f a)
  | XRes.err e => XRes.err e

/-! ## Integer helpers of eval.rs: `gcd` (on i64, via `%` = `tmod`) and
`to_integer` -/

theorem natAbsEmod (m n : ℕ) : ((m : ℤ) % (n : ℤ)).natAbs = m % n := by
  rw [← Int.natCast_mod]
  exact Int.natAbs_ofNat _

theorem natAbs_tmod (a b : Int) : (a.tmod b).natAbs = a.natAbs % b.natAbs := by
  cases a with
  | ofNat m =>
    cases b with
    | ofNat n => simpa [Int.tmod] using natAbsEmod m n
    | negSucc n => simpa [Int.tmod, Nat.cast_add, Nat.cast_one] using natAbsEmod m (n + 1)
  | negSucc m =>
    cases b with
    | ofNat n =>
      simpa [Int.tmod, Int.natAbs_neg, Nat.cast_add, Nat.cast_one] using natAbsEmod (m + 1) n
    | negSucc n =>
      simpa [Int.tmod, Int.natAbs_neg, Nat.cast_add, Nat.cast_one] using
        natAbsEmod (m + 1) (n + 1)

/-- eval.rs `gcd`: Euclid's algorithm with Rust `%` on i64, i.e. `Int.tmod`
(i64 overflow does not occur on the values reachable from `to_integer`,
whose results are bounded by 2^53). -/
def gcdI (a b : Int) : Int :=
  if b = 0 then a else gcdI b (a.tmod b)
termination_by b.natAbs
decreasing_by
  rename_i h
  rw [natAbs_tmod]
  exact Nat.mod_lt _ (Int.natAbs_pos.mpr h)

open scoped Classical in
/-- eval.rs `to_integer`.  `x.is_finite()` always holds over exact reals, so
that guard is omitted.  The argument-type message renders the offending
float; numeral formatting is not modelled, so the message keeps only its
fixed prefix. -/
noncomputable def toInteger (x : ℝ) (fname : String) : XRes Int :=
  if |x - rustRound x| > 1e-9 then
    XRes.err (Err.argType (fname ++ " requires integer arguments, got "))
  else if |rustRound x| > 9007199254740992 then
    XRes.err (Err.overflowErr (fname ++ " argument too large for integer arithmetic"))
  else XRes.ok ⌊rustRound x⌋

/-! ## Built-in functions (src/core/src/evaluator/functions.rs)

`apply_function` calls itself with literal names (`"tan"` uses `"sin"` and
`"cos"`, `"acot"` uses `"atan"`, ...); those bounded self-calls are inlined
here through the named helpers below, a faithful unfolding since the
callee's branch is determined by the literal. -/

noncomputable def sinCx (z : Cx) (mode : AngleMode) : Cx :=
  ⟨Real.sin (mode.toRadians z.re) * Real.cosh z.im,
   Real.cos (mode.toRadians z.re) * Real.sinh z.im⟩

noncomputable def cosCx (z : Cx) (mode : AngleMode) : Cx :=
  ⟨Real.cos (mode.toRadians z.re) * Real.cosh z.im,
   -Real.sin (mode.toRadians z.re) * Real.sinh z.im⟩

noncomputable def sinhCx (z : Cx) : Cx :=
  ⟨Real.sinh z.re * Real.cos z.im, Real.cosh z.re * Real.sin z.im⟩

noncomputable def coshCx (z : Cx) : Cx :=
  ⟨Real.cosh z.re * Real.cos z.im, Real.sinh z.re * Real.sin z.im⟩

noncomputable def asinCx (z : Cx) (mode : AngleMode) : XRes Cx :=
  let iz : Cx := ⟨-z.im, z.re⟩
  let one_minus_z2 := ((Cx.real 1).sub (z.mul z)).sqrtC
  ((iz.add one_minus_z2).ln).bind fun l =>
    let result := l.mul ⟨0, -1⟩
    XRes.ok ⟨mode.fromRadians result.re, result.im⟩

noncomputable def acosCx (z : Cx) (mode : AngleMode) : XRes Cx :=
  let one_minus_z2 := ((Cx.real 1).sub (z.mul z)).sqrtC
  let i_sqrt := one_minus_z2.mul ⟨0, 1⟩
  ((z.add i_sqrt).ln).bind fun l =>
    let result := l.mul ⟨0, -1⟩
    XRes.ok ⟨mode.fromRadians result.re, result.im⟩

noncomputable def atanCx (z : Cx) (mode : AngleMode) : XRes Cx :=
  let i : Cx := ⟨0, 1⟩
  (i.div (Cx.real 2)).bind fun half_i =>
    ((i.add z).div (i.sub z)).bind fun quotient =>
      (quotient.ln).bind fun lq =>
        let result := half_i.mul lq
        XRes.ok ⟨mode.fromRadians result.re, result.im⟩

noncomputable def asinhCx (z : Cx) : XRes Cx :=
  let z2_plus_1 := ((z.mul z).add (Cx.real 1)).sqrtC
  (z.add z2_plus_1).ln

noncomputable def acoshCx (z : Cx) : XRes Cx :=
  let z2_minus_1 := ((z.mul z).sub (Cx.real 1)).sqrtC
  (z.add z2_minus_1).ln

noncomputable def atanhCx (z : Cx) : XRes Cx :=
  let one := Cx.real 1
  let half := Cx.real 0.5
  ((one.add z).div (one.sub z)).bind fun quotient =>
    (quotient.ln).bind fun l => XRes.ok (l.mul half)

/-- Subset of Rust's `f64::from_str` grammar used for `log:` bases: optional
sign, then digits with an optional fractional part.  The exponent, `inf`
and `nan` forms are not modelled (no claim exercises them); the parsed
value is exact. -/
noncomputable def parseF64 (s : String) : Option ℝ :=
  let cs := s.toList
  let signed : ℝ × List Char :=
    match cs with
    | '+' :: r => (1, r)
    | '-' :: r => (-1, r)
    | r => (1, r)
  let ds := signed.2.takeWhile Char.isDigit
  let r2 := signed.2.drop ds.length
  match r2 with
  | [] => if ds = [] then none else some (signed.1 * digitsToNat ds)
  | '.' :: r3 =>
    let fs := r3.takeWhile Char.isDigit
    if r3.drop fs.length ≠ [] then none
    else if ds = [] ∧ fs = [] then none
    else some (signed.1 * (digitsToNat ds + digitsToNat fs / 10 ^ fs.length))
  | _ => none

open scoped Classical in
/-- functions.rs `apply_function`. -/
noncomputable def applyFunction (name : String) (z : Cx) (mode : AngleMode) : XRes Cx :=
  match name with
  | "sin" => XRes.ok (sinCx z mode)
  | "cos" => XRes.ok (cosCx z mode)
  | "tan" => (sinCx z mode).div (cosCx z mode)
  | "cot" => (cosCx z mode).div (sinCx z mode)
  | "asin" => asinCx z mode
  | "acos" => acosCx z mode
  | "atan" => atanCx z mode
  | "acot" => ((Cx.real 1).div z).bind fun w => atanCx w mode
  | "sinh" => XRes.ok (sinhCx z)
  | "cosh" => XRes.ok (coshCx z)
  | "tanh" => (sinhCx z).div (coshCx z)
  | "coth" => (coshCx z).div (sinhCx z)
  | "asinh" => asinhCx z
  | "acosh" => acoshCx z
  | "atanh" => atanhCx z
  | "acoth" => ((Cx.real 1).div z).bind fun w => atanhCx w
  | "sec" => (XRes.ok (cosCx z mode)).bind fun c => (Cx.real 1).div c
  | "csc" => (XRes.ok (sinCx z mode)).bind fun c => (Cx.real 1).div c
  | "asec" => ((Cx.real 1).div z).bind fun w => acosCx w mode
  | "acsc" => ((Cx.real 1).div z).bind fun w => asinCx w mode
  | "sech" => (XRes.ok (coshCx z)).bind fun c => (Cx.real 1).div c
  | "csch" => (XRes.ok (sinhCx z)).bind fun c => (Cx.real 1).div c
  | "asech" => ((Cx.real 1).div z).bind fun w => acoshCx w
  | "acsch" => ((Cx.real 1).div z).bind fun w => asinhCx w
  | "exp" => XRes.ok z.exp
  | "ln" => z.ln
  | "lg" => (z.ln).bind fun l => XRes.ok (l.mul (Cx.real (1 / Real.log 10)))
  | "log" => (z.ln).bind fun l => XRes.ok (l.mul (Cx.real (1 / Real.log 10)))
  | "sqrt" => XRes.ok z.sqrtC
  | "cbrt" => z.pow (Cx.real (1 / 3))
  | "abs" => XRes.ok (Cx.real z.absVal)
  | "floor" =>
    if ¬ z.isReal then XRes.err (Err.argType ("floor only defined for real numbers"))
    else XRes.ok (Cx.real (⌊z.re⌋ : ℤ))
  | "ceil" =>
    if ¬ z.isReal then XRes.err (Err.argType ("ceil only defined for real numbers"))
    else XRes.ok (Cx.real (⌈z.re⌉ : ℤ))
  | "round" =>
    if ¬ z.isReal then XRes.err (Err.argType ("round only defined for real numbers"))
    else XRes.ok (Cx.real (rustRound z.re))
  | "trunc" =>
    if ¬ z.isReal then XRes.err (Err.argType ("trunc only defined for real numbers"))
    else XRes.ok (Cx.real (rustTrunc z.re))
  | "frac" =>
    if ¬ z.isReal then XRes.err (Err.argType ("frac only defined for real numbers"))
    else XRes.ok (Cx.real (rustFract z.re))
  | "sign" =>
    if ¬ z.isReal then XRes.err (Err.argType ("sign only defined for real numbers"))
    else XRes.ok (Cx.real (rustSignum z.re))
  | "sgn" =>
    if ¬ z.isReal then XRes.err (Err.argType ("sign only defined for real numbers"))
    else XRes.ok (Cx.real (rustSignum z.re))
  | "arg" => XRes.ok (Cx.real z.arg)
  | "conj" => XRes.ok ⟨z.re, -z.im⟩
  | "real" => XRes.ok (Cx.real z.re)
  | "imag" => XRes.ok (Cx.real z.im)
  | "deg" => XRes.ok (Cx.real (z.re * (180 / Real.pi)))
  | "rad" => XRes.ok (Cx.real (z.re * (Real.pi / 180)))
  | _ =>
    if List.isPrefixOf ("log:".toList) name.toList then
      let base_str := (name.toList.drop 4).asString
      let base_expr := (base_str.toList.map (fun c => if c = ',' then '.' else c)).asString
      match parseF64 base_expr with
      | none => XRes.err (Err.parse ("Invalid log base: " ++ base_str))
      | some base =>
        if base ≤ 0 ∨ base = 1 then
          XRes.err (Err.domain ("Log base must be positive and not 1"))
        else (z.ln).bind fun l => XRes.ok (l.mul (Cx.real (1 / Real.log base)))
    else XRes.err (Err.undefined ("Unknown function: " ++ name))

/-! ## AST evaluation (src/core/src/ast/eval.rs)

The source recurses without any depth bound (§4.6 of the spec records the
possibility of unbounded recursion through user functions).  The embedding
threads a fuel counter that decreases ONLY when stepping into a
user-defined function's body; `Res.div` marks fuel exhaustion, a state no
terminating Rust execution reaches, and every other code path is
fuel-independent. -/

/-- Evaluation outcome: `Res.div` is fuel exhaustion (nontermination of the
unbounded source recursion), distinct from the source's `Err`. -/
inductive Res (α : Type) where
  | ok (a : α)
  | err (e : Err)
  | div

def Res.bind {α β : Type} : Res α → (α → Res β) → Res β
  | Res.ok a, f => f a
  | Res.err e, _ => Res.err e
  | Res.div, _ => Res.div

def Res.ofX {α : Type} : XRes α → Res α
  | XRes.ok a => Res.ok a
  | XRes.err e => Res.err e

/-- `HashMap<String, Cx>` as a lookup function. -/
def VarMap : Type := String → Option Cx

/-- `UserFns = HashMap<String, (Vec<String>, Ast)>` as a lookup function. -/
def FnMap : Type := String → Option (List String × Ast)

def emptyVars : VarMap := fun _ => none

def emptyFns : FnMap := fun _ => none

def VarMap.insert (m : VarMap) (k : String) (v : Cx) : VarMap :=
  fun n => if n = k then some v else m n

def FnMap.insert (m : FnMap) (k : String) (v : List String × Ast) : FnMap :=
  fun n => if n = k then some v else m n

noncomputable def NumLit.toReal (v : NumLit) : ℝ := (v.mant : ℝ) / 10 ^ v.scale

open scoped Classical in
/-- eval.rs `cmp_op`. -/
noncomputable def cmpOp (left right : Cx) (compare : ℝ → ℝ → Prop) : XRes Cx :=
  if ¬ left.isReal ∨ ¬ right.isReal then
    XRes.err (Err.argType ("Comparison operators only defined for real numbers"))
  else XRes.ok (Cx.real (if compare left.re right.re then 1 else 0))

open scoped Classical in
/-- The non-short-circuit arms of the `BinOp` match in `eval_ast`, applied
after both operands are evaluated.  The `and`/`or` arms are
`unreachable!()` in the source (the caller intercepts them); the panic is
modelled as an error no reachable path produces. -/
noncomputable def binArith (op : BinOp) (left right : Cx) : XRes Cx :=
  match op with
  | BinOp.add => XRes.ok (left.add right)
  | BinOp.sub => XRes.ok (left.sub right)
  | BinOp.mul => XRes.ok (left.mul right)
  | BinOp.div => left.div right
  | BinOp.pow => left.pow right
  | BinOp.mod =>
    if right.re = 0 ∧ right.im = 0 then XRes.err (Err.domain ("Modulo by zero"))
    else if ¬ right.isReal then
      XRes.err (Err.argType ("Modulo only defined for real numbers"))
    else XRes.ok (Cx.real (rustFmod left.re right.re))
  | BinOp.eq => cmpOp left right (fun a b => |a - b| < 1e-12)
  | BinOp.ne => cmpOp left right (fun a b => |a - b| ≥ 1e-12)
  | BinOp.lt => cmpOp left right (fun a b => a < b)
  | BinOp.le => cmpOp left right (fun a b => a ≤ b)
  | BinOp.gt => cmpOp left right (fun a b => a > b)
  | BinOp.ge => cmpOp left right (fun a b => a ≥ b)
  | BinOp.and => XRes.err (Err.domain ("unreachable"))
  | BinOp.or => XRes.err (Err.domain ("unreachable"))

section
open scoped Classical

mutual

noncomputable def evalAst (fuel : Nat) (vars : VarMap) (fns : FnMap) (mode : AngleMode) :
    Ast → Res Cx
  | Ast.number value => Res.ok (Cx.real value.toReal)
  | Ast.var name =>
    match vars name with
    | some c => Res.ok c
    | none => Res.err (Err.undefined ("Undefined variable: " ++ name))
  | Ast.binOp op left_ast right_ast =>
    match op with
    | BinOp.and =>
      Res.bind (evalAst fuel vars fns mode left_ast) fun left =>
        if left.re = 0 ∧ left.im = 0 then Res.ok (Cx.real 0)
        else
          Res.bind (evalAst fuel vars fns mode right_ast) fun right =>
            Res.ok (Cx.real (if right.re ≠ 0 ∨ right.im ≠ 0 then 1 else 0))
    | BinOp.or =>
      Res.bind (evalAst fuel vars fns mode left_ast) fun left =>
        if left.re ≠ 0 ∨ left.im ≠ 0 then Res.ok (Cx.real 1)
        else
          Res.bind (evalAst fuel vars fns mode right_ast) fun right =>
            Res.ok (Cx.real (if right.re ≠ 0 ∨ right.im ≠ 0 then 1 else 0))
    | op =>
      Res.bind (evalAst fuel vars fns mode left_ast) fun left =>
        Res.bind (evalAst fuel vars fns mode right_ast) fun right =>
          Res.ofX (binArith op left right)
  | Ast.unaryNeg inner =>
    Res.bind (evalAst fuel vars fns mode inner) fun v => Res.ok v.neg
  | Ast.unaryNot inner =>
    Res.bind (evalAst fuel vars fns mode inner) fun value =>
      Res.ok (Cx.real (if value.re = 0 ∧ value.im = 0 then 1 else 0))
  | Ast.fact inner =>
    Res.bind (evalAst fuel vars fns mode inner) fun value =>
      if ¬ value.isReal then Res.err (Err.argType ("Factorial only for real numbers"))
      else Res.ofX ((factorial value.re).map Cx.real)
  | Ast.call name args => evalCall fuel vars fns mode name args
termination_by ast => (fuel, sizeOf ast, 0)


noncomputable def evalCall (fuel : Nat) (vars : VarMap) (fns : FnMap) (mode : AngleMode)
    (name : String) (args : List Ast) : Res Cx :=
  match fns name with
  | some (params, body) =>
    if args.length ≠ params.length then
      Res.err (Err.argCount
        (name ++ "() expects " ++ Nat.repr params.length ++ " argument(s), got " ++
          Nat.repr args.length))
    else
      Res.bind (evalBind fuel vars fns mode params args vars) fun call_vars =>
        match fuel with
        | 0 => Res.div
        | n + 1 => evalAst n call_vars fns mode body
  | none => evalBuiltin fuel vars fns mode name args
termination_by (fuel, sizeOf args, 2)

/-- The built-in dispatch of eval.rs `eval_call` (its code after the
user-function lookup misses).  It and the per-builtin helpers below are
split out of `evalCall` only to keep each definition's compiled form small;
together they are that function's `match name` body in source order. -/
noncomputable def evalBuiltin (fuel : Nat) (vars : VarMap) (fns : FnMap) (mode : AngleMode)
    (name : String) (args : List Ast) : Res Cx :=
  if name = "if" then evalIfB fuel vars fns mode args
  else if name = "min" then evalMinB fuel vars fns mode args
  else if name = "max" then evalMaxB fuel vars fns mode args
  else if name = "clamp" then evalClampB fuel vars fns mode args
  else if name = "gcd" then evalGcdB fuel vars fns mode args
  else if name = "lcm" then evalLcmB fuel vars fns mode args
  else evalOneArgB fuel vars fns mode name args
termination_by (fuel, sizeOf args, 1)

noncomputable def evalIfB (fuel : Nat) (vars : VarMap) (fns : FnMap) (mode : AngleMode)
    (args : List Ast) : Res Cx :=
  match args with
  | [c, t, f] =>
    Res.bind (evalAst fuel vars fns mode c) fun condition =>
      if condition.re ≠ 0 ∨ condition.im ≠ 0 then evalAst fuel vars fns mode t
      else evalAst fuel vars fns mode f
  | _ =>
    Res.err (Err.argCount ("if requires 3 arguments: if(condition, true_value, false_value)"))
termination_by (fuel, sizeOf args, 0)

noncomputable def evalMinB (fuel : Nat) (vars : VarMap) (fns : FnMap) (mode : AngleMode)
    (args : List Ast) : Res Cx :=
  match args with
  | [] => Res.err (Err.argCount ("min requires at least one argument"))
  | a :: rest =>
    Res.bind (evalRealArg fuel vars fns mode ("min") a) fun b =>
      Res.bind (minLoop fuel vars fns mode rest b) fun best => Res.ok (Cx.real best)
termination_by (fuel, sizeOf args, 0)

noncomputable def evalMaxB (fuel : Nat) (vars : VarMap) (fns : FnMap) (mode : AngleMode)
    (args : List Ast) : Res Cx :=
  match args with
  | [] => Res.err (Err.argCount ("max requires at least one argument"))
  | a :: rest =>
    Res.bind (evalRealArg fuel vars fns mode ("max") a) fun b =>
      Res.bind (maxLoop fuel vars fns mode rest b) fun best => Res.ok (Cx.real best)
termination_by (fuel, sizeOf args, 0)

noncomputable def evalClampB (fuel : Nat) (vars : VarMap) (fns : FnMap) (mode : AngleMode)
    (args : List Ast) : Res Cx :=
  match args with
  | [x, lo, hi] =>
    Res.bind (evalRealArg fuel vars fns mode ("clamp") x) fun value =>
      Res.bind (evalRealArg fuel vars fns mode ("clamp") lo) fun lower =>
        Res.bind (evalRealArg fuel vars fns mode ("clamp") hi) fun upper =>
          Res.ok (Cx.real (min (max value lower) upper))
  | _ => Res.err (Err.argCount ("clamp requires 3 arguments: clamp(x, min, max)"))
termination_by (fuel, sizeOf args, 0)

noncomputable def evalGcdB (fuel : Nat) (vars : VarMap) (fns : FnMap) (mode : AngleMode)
    (args : List Ast) : Res Cx :=
  match args with
  | [x, y] =>
    Res.bind (evalRealArg fuel vars fns mode ("gcd") x) fun xr =>
      Res.bind (Res.ofX (toInteger xr ("gcd"))) fun a =>
        Res.bind (evalRealArg fuel vars fns mode ("gcd") y) fun yr =>
          Res.bind (Res.ofX (toInteger yr ("gcd"))) fun b =>
            Res.ok (Cx.real ((gcdI |a| |b| : ℤ) : ℝ))
  | _ => Res.err (Err.argCount ("gcd requires 2 arguments"))
termination_by (fuel, sizeOf args, 0)

noncomputable def evalLcmB (fuel : Nat) (vars : VarMap) (fns : FnMap) (mode : AngleMode)
    (args : List Ast) : Res Cx :=
  match args with
  | [x, y] =>
    Res.bind (evalRealArg fuel vars fns mode ("lcm") x) fun xr =>
      Res.bind (Res.ofX (toInteger xr ("lcm"))) fun a =>
        Res.bind (evalRealArg fuel vars fns mode ("lcm") y) fun yr =>
          Res.bind (Res.ofX (toInteger yr ("lcm"))) fun b =>
            let divisor := gcdI |a| |b|
            if divisor = 0 then Res.ok (Cx.real 0)
            else Res.ok (Cx.real (((a.tdiv divisor * b).natAbs : ℕ) : ℝ))
  | _ => Res.err (Err.argCount ("lcm requires 2 arguments"))
termination_by (fuel, sizeOf args, 0)

noncomputable def evalOneArgB (fuel : Nat) (vars : VarMap) (fns : FnMap) (mode : AngleMode)
    (name : String) (args : List Ast) : Res Cx :=
  match args with
  | [a] =>
    Res.bind (evalAst fuel vars fns mode a) fun value =>
      Res.ofX (applyFunction name value mode)
  | _ =>
    Res.err (Err.argCount ("'" ++ name ++ "' requires exactly 1 argument"))
termination_by (fuel, sizeOf args, 0)


noncomputable def evalBind (fuel : Nat) (vars : VarMap) (fns : FnMap) (mode : AngleMode) :
    List String → List Ast → VarMap → Res VarMap
  | p :: ps, a :: rest, acc =>
    Res.bind (evalAst fuel vars fns mode a) fun value =>
      evalBind fuel vars fns mode ps rest (acc.insert p value)
  | _, _, acc => Res.ok acc
termination_by _ps rest _acc => (fuel, sizeOf rest, 1)


noncomputable def evalRealArg (fuel : Nat) (vars : VarMap) (fns : FnMap) (mode : AngleMode)
    (fname : String) (ast : Ast) : Res ℝ :=
  Res.bind (evalAst fuel vars fns mode ast) fun value =>
    if ¬ value.isReal then
      Res.err (Err.argType (fname ++ " only defined for real arguments"))
    else Res.ok value.re
termination_by (fuel, sizeOf ast, 1)


noncomputable def minLoop (fuel : Nat) (vars : VarMap) (fns : FnMap) (mode : AngleMode) :
    List Ast → ℝ → Res ℝ
  | [], best => Res.ok best
  | a :: rest, best =>
    Res.bind (evalRealArg fuel vars fns mode ("min") a) fun value =>
      minLoop fuel vars fns mode rest (if value < best then value else best)
termination_by rest _best => (fuel, sizeOf rest, 1)


noncomputable def maxLoop (fuel : Nat) (vars : VarMap) (fns : FnMap) (mode : AngleMode) :
    List Ast → ℝ → Res ℝ
  | [], best => Res.ok best
  | a :: rest, best =>
    Res.bind (evalRealArg fuel vars fns mode ("max") a) fun value =>
      maxLoop fuel vars fns mode rest (if value > best then value else best)
termination_by rest _best => (fuel, sizeOf rest, 1)


end

end

/-! ## CalcResult and the evaluate entry points
(src/core/src/evaluator/calc_result.rs, src/core/src/evaluator/mod.rs) -/

inductive CalcResult where
  | real (value : ℝ)
  | complex (re im : ℝ)

open scoped Classical in
noncomputable def Cx.toCalcResult (z : Cx) : CalcResult :=
  if z.isReal then CalcResult.real z.re else CalcResult.complex z.re z.im

noncomputable def evaluateWithVarsAndFns (fuel : Nat) (expr : String) (mode : AngleMode)
    (vars : VarMap) (fns : FnMap) : Res CalcResult :=
  match parseStr expr with
  | XRes.err e => Res.err e
  | XRes.ok ast =>
    Res.bind (evalAst fuel vars fns mode ast) fun result => Res.ok result.toCalcResult

noncomputable def evaluateWithVars (fuel : Nat) (expr : String) (mode : AngleMode)
    (vars : VarMap) : Res CalcResult :=
  evaluateWithVarsAndFns fuel expr mode vars emptyFns

noncomputable def evaluateComplex (fuel : Nat) (expr : String) (mode : AngleMode) :
    Res CalcResult :=
  evaluateWithVars fuel expr mode emptyVars

noncomputable def evaluate (fuel : Nat) (expr : String) (mode : AngleMode) : Res ℝ :=
  match evaluateComplex fuel expr mode with
  | Res.ok (CalcResult.real value) => Res.ok value
  | Res.ok (CalcResult.complex _ _) => Res.err (Err.complexResult ("Result is complex"))
  | Res.err e => Res.err e
  | Res.div => Res.div

/-! ## Session (src/core/src/evaluator/session.rs)

Rust `str::trim` removes Unicode whitespace; `Char.isWhitespace` covers the
ASCII subset, which is all the claims exercise.  `to_lowercase` is applied
only to names already validated as ASCII identifiers, where it coincides
with `asciiLower`. -/

def rustTrimStart (cs : List Char) : List Char := cs.dropWhile (fun c => c.isWhitespace)

def rustTrim (cs : List Char) : List Char :=
  ((cs.dropWhile (fun c => c.isWhitespace)).reverse.dropWhile (fun c => c.isWhitespace)).reverse

/-- The identifier test shared by `split_fn_def` (name, params) and
`split_assignment` (lhs): non-empty, leading ASCII letter, all ASCII
alphanumeric or underscore. -/
def identOk (cs : List Char) : Bool :=
  match cs with
  | [] => false
  | c :: _ => c.isAlpha && cs.all (fun ch => ch.isAlphanum || ch = '_')

/-- Rust `str::split(',')` (always yields at least one piece). -/
def splitCommaAux : List Char → List Char → List (List Char)
  | [], cur => [cur.reverse]
  | c :: rest, cur =>
    if c = ',' then cur.reverse :: splitCommaAux rest [] else splitCommaAux rest (c :: cur)

/-- session.rs `split_fn_def`. -/
def splitFnDef (line : String) : Option (String × List String × String) :=
  let cs := line.toList
  let pre := cs.takeWhile (fun c => c ≠ '(')
  if pre.length = cs.length then none
  else
    let name := rustTrim pre
    if ¬ identOk name then none
    else
      let after := cs.drop (pre.length + 1)
      let inner := after.takeWhile (fun c => c ≠ ')')
      if inner.length = after.length then none
      else
        let after_paren := rustTrimStart (after.drop (inner.length + 1))
        match after_paren with
        | '=' :: restEq =>
          match rustTrimStart restEq with
          | '=' :: _ => none
          | after_eq =>
            let params_str := rustTrim inner
            let params :=
              if params_str = [] then [] else (splitCommaAux params_str []).map rustTrim
            if params.all identOk then
              some (name.asString, params.map List.asString, after_eq.asString)
            else none
        | _ => none

/-- The scanning loop of session.rs `split_assignment`: first index `i` with
`line[i] = '='`, previous byte not `!`/`<`/`>`, next byte not `=`, and a
valid identifier on the left (byte-level tests coincide with the char-level
ones here, since `=`, `!`, `<`, `>` never occur inside a multi-byte UTF-8
character). -/
def splitAssignAux (orig : List Char) : Option Char → Nat → List Char → Option Nat
  | _, _, [] => none
  | prev, i, c :: rest =>
    if c = '=' ∧ (prev ≠ some '!' ∧ prev ≠ some '<' ∧ prev ≠ some '>') ∧
        rest.head? ≠ some '=' ∧ identOk (rustTrim (orig.take i)) then some i
    else splitAssignAux orig (some c) (i + 1) rest

/-- session.rs `split_assignment`. -/
def splitAssignment (line : String) : Option (String × String) :=
  let cs := line.toList
  (splitAssignAux cs none 0 cs).map fun i =>
    ((rustTrim (cs.take i)).asString, (rustTrim (cs.drop (i + 1))).asString)

structure Session where
  angle_mode : AngleMode
  vars : VarMap
  fns : FnMap

def Session.new (mode : AngleMode) : Session := ⟨mode, emptyVars, emptyFns⟩

/-- session.rs `Session::eval`, returning the result together with the
updated session state (the Rust method mutates `self`). -/
noncomputable def Session.eval (s : Session) (fuel : Nat) (line : String) :
    Res CalcResult × Session :=
  let line := (rustTrim line.toList).asString
  match splitFnDef line with
  | some (name, params, body_str) =>
    match parseStr body_str with
    | XRes.err e => (Res.err e, s)
    | XRes.ok body_ast =>
      (Res.ok (CalcResult.real 0),
       { s with fns := s.fns.insert (asciiLower name.toList).asString (params, body_ast) })
  | none =>
    match splitAssignment line with
    | some (lhs, rhs) =>
      match evaluateWithVarsAndFns fuel rhs s.angle_mode s.vars s.fns with
      | Res.ok result =>
        let cx : Cx :=
          match result with
          | CalcResult.real value => Cx.real value
          | CalcResult.complex re im => ⟨re, im⟩
        (Res.ok result, { s with vars := s.vars.insert lhs cx })
      | r => (r, s)
    | none => (evaluateWithVarsAndFns fuel line s.angle_mode s.vars s.fns, s)

noncomputable def Session.getVar (s : Session) (name : String) : Option CalcResult :=
  (s.vars name).map Cx.toCalcResult

def Session.setVar (s : Session) (name : String) (re im : ℝ) : Session :=
  { s with vars := s.vars.insert name ⟨re, im⟩ }

/-! ## Numerics (src/core/src/numerics.rs): `sum` and `prod` -/

/-- Release-mode i64 subtraction wraps modulo 2^64 into `[-2^63, 2^63)`;
`wrap64 (to - from)` is the value the range guard actually compares. -/
def wrap64 (d : Int) : Int := (d + 2 ^ 63) % 2 ^ 64 - 2 ^ 63

def MAX_TERMS : Int := 10000000

open scoped Classical in
/-- numerics.rs `eval_at` (the rendered `x` in the complex-value message is
not modelled). -/
noncomputable def evalAt (fuel : Nat) (ast : Ast) (var : String) (x : ℝ)
    (mode : AngleMode) : Res ℝ :=
  Res.bind (evalAst fuel (emptyVars.insert var (Cx.real x)) emptyFns mode ast) fun result =>
    if result.isReal then Res.ok result.re
    else Res.err (Err.complexResult ("Expression produced a complex value at x="))

/-- The `for k in from..=to` accumulation of `sum`, iterated `count` times
starting at `k` (`count = to - from + 1` when `from ≤ to`, `0` otherwise). -/
noncomputable def sumLoop (fuel : Nat) (ast : Ast) (var : String) (mode : AngleMode) :
    Int → Nat → ℝ → Res ℝ
  | _, 0, acc => Res.ok acc
  | k, count + 1, acc =>
    Res.bind (evalAt fuel ast var (k : ℝ) mode) fun value =>
      sumLoop fuel ast var mode (k + 1) count (acc + value)

/-- numerics.rs `sum`. -/
noncomputable def sumF (fuel : Nat) (expr var : String) (fromI toI : Int)
    (mode : AngleMode) : Res ℝ :=
  if wrap64 (toI - fromI) > MAX_TERMS then
    Res.err (Err.rangeTooLarge ("Sum range too large (max 10000000 terms)"))
  else
    match parseStr expr with
    | XRes.err e => Res.err e
    | XRes.ok ast => sumLoop fuel ast var mode fromI (toI - fromI + 1).toNat 0

noncomputable def prodLoop (fuel : Nat) (ast : Ast) (var : String) (mode : AngleMode) :
    Int → Nat → ℝ → Res ℝ
  | _, 0, acc => Res.ok acc
  | k, count + 1, acc =>
    Res.bind (evalAt fuel ast var (k : ℝ) mode) fun value =>
      prodLoop fuel ast var mode (k + 1) count (acc * value)

/-- numerics.rs `prod`. -/
noncomputable def prodF (fuel : Nat) (expr var : String) (fromI toI : Int)
    (mode : AngleMode) : Res ℝ :=
  if wrap64 (toI - fromI) > MAX_TERMS then
    Res.err (Err.rangeTooLarge ("Product range too large (max 10000000 terms)"))
  else
    match parseStr expr with
    | XRes.err e => Res.err e
    | XRes.ok ast => prodLoop fuel ast var mode fromI (toI - fromI + 1).toNat 1

/-! ## Signed zero (claim C9)

Exact reals cannot distinguish `0.0` from `-0.0`, so the `sign`/`sgn`
branch of functions.rs (lines 178-183) is additionally modelled over a
value-with-sign-bit representation of the f64 inputs it can receive: the
branch guard `is_real` and the call `z.re.signum()`, which reads only the
sign bit (`1.0` when clear, `-1.0` when set — never `0.0`). -/

/-- An f64 as IEEE sign bit plus magnitude: `⟨false, 0⟩` is `0.0`,
`⟨true, 0⟩` is `-0.0`. -/
structure SF64 where
  sign : Bool
  mag : ℝ

/-- `f64::signum`: `-1.0` when the sign bit is set, else `1.0` (NaN inputs
do not arise here). -/
def SF64.signum (x : SF64) : ℝ := if x.sign then -1 else 1

/-- A `Cx` whose real part keeps its sign bit. -/
structure CxS where
  re : SF64
  im : ℝ

def CxS.isReal (z : CxS) : Prop := |z.im| < 1e-12

open scoped Classical in
/-- The `"sign" | "sgn"` arm of `apply_function` over the sign-bit model. -/
noncomputable def applySignBranch (z : CxS) : XRes ℝ :=
  if ¬ z.isReal then XRes.err (Err.argType ("sign only defined for real numbers"))
  else XRes.ok z.re.signum

/-! ## The assignment matcher as a predicate (claim C2) -/

/-- Index `i` of `cs` is an assignment split point: the character there is
`=`, the previous character (if any) is none of `!` `<` `>`, the next
character (if any) is not `=`, and the text left of `i` trims to a valid
identifier.  `split_assignment` succeeds exactly when some index satisfies
this. -/
def assignPred (cs : List Char) (i : Nat) : Prop :=
  cs[i]? = some '=' ∧
  (∀ j, i = j + 1 → (cs[j]? ≠ some '!' ∧ cs[j]? ≠ some '<' ∧ cs[j]? ≠ some '>')) ∧
  cs[i + 1]? ≠ some '=' ∧
  identOk (rustTrim (cs.take i)) = true

/-! # Claim theorems -/

theorem Cx.absVal_eq_zero_iff (z : Cx) : z.absVal = 0 ↔ z.re = 0 ∧ z.im = 0 := by
  unfold Cx.absVal
  rw [show z.re * z.re + z.im * z.im = z.re ^ 2 + z.im ^ 2 by ring]
  rw [Real.sqrt_eq_zero (by positivity)]
  constructor
  · intro h
    constructor <;> nlinarith [sq_nonneg z.re, sq_nonneg z.im]
  · rintro ⟨h1, h2⟩
    rw [h1, h2]
    ring

theorem Cx.ln_ok_of_ne (z : Cx) (h : ¬ (z.re = 0 ∧ z.im = 0)) :
    z.ln = XRes.ok ⟨Real.log z.absVal, z.arg⟩ := by
  unfold Cx.ln
  rw [if_neg (fun h0 => h ((Cx.absVal_eq_zero_iff z).mp h0))]

/-- C9 `sign`/`sgn` at zero never return `0`: the branch guard passes for a
real input, `signum` reads only the sign bit, so `0.0` gives `1.0` and
`-0.0` gives `-1.0`; in the exact-real embedding `applyFunction` on
`sign` at `0` likewise yields `rustSignum 0 = 1`. -/
theorem C9_sign_of_zero :
    applySignBranch ⟨⟨false, 0⟩, 0⟩ = XRes.ok 1 ∧
    applySignBranch ⟨⟨true, 0⟩, 0⟩ = XRes.ok (-1) ∧
    (1 : ℝ) ≠ 0 ∧ (-1 : ℝ) ≠ 0 ∧
    applyFunction ("sign") (Cx.real 0) AngleMode.rad = XRes.ok (Cx.real (rustSignum 0)) ∧
    applyFunction ("sgn") (Cx.real 0) AngleMode.rad = XRes.ok (Cx.real (rustSignum 0)) ∧
    rustSignum 0 = 1 := by
  refine ⟨?_, ?_, by norm_num, by norm_num, ?_, ?_, ?_⟩
  · rw [applySignBranch, if_neg]
    · rfl
    · simp [CxS.isReal]
      norm_num
  · rw [applySignBranch, if_neg]
    · simp [SF64.signum]
    · simp [CxS.isReal]
      norm_num
  · simp [applyFunction, Cx.isReal, Cx.real]
    norm_num
  · simp [applyFunction, Cx.isReal, Cx.real]
    norm_num
  · simp [rustSignum]

/-- C4 `Cx::pow`: with base `0+0i` it returns `0` when the exponent's real
part is positive and otherwise fails with exactly
`DomainError "0^x undefined for x≤0"`; with any other base it succeeds with
`exp(ln(a)·b)`.  So it fails iff `a = 0+0i ∧ b.re ≤ 0`. -/
theorem C4_pow_spec (a b : Cx) :
    (a.re = 0 ∧ a.im = 0 →
      (b.re > 0 → a.pow b = XRes.ok (Cx.real 0)) ∧
      (¬ b.re > 0 → a.pow b = XRes.err (Err.domain ("0^x undefined for x≤0")) ∧
        (Err.domain ("0^x undefined for x≤0")).kind = ErrorKind.domainError)) ∧
    (¬ (a.re = 0 ∧ a.im = 0) →
      a.pow b = XRes.ok ((Cx.mul ⟨Real.log a.absVal, a.arg⟩ b).exp)) := by
  constructor
  · intro h0
    constructor
    · intro hpos
      rw [Cx.pow, if_pos h0, if_pos hpos]
    · intro hneg
      rw [Cx.pow, if_pos h0, if_neg hneg]
      exact ⟨rfl, rfl⟩
  · intro h0
    rw [Cx.pow, if_neg h0, Cx.ln_ok_of_ne a h0]

/-- C4 witness: `0 ^ (-1+0i)` is the domain error. -/
theorem C4_pow_spec_witness :
    Cx.pow ⟨0, 0⟩ ⟨-1, 0⟩ = XRes.err (Err.domain ("0^x undefined for x≤0")) :=
  (((C4_pow_spec ⟨0, 0⟩ ⟨-1, 0⟩).1 ⟨rfl, rfl⟩).2 (by norm_num)).1

theorem absVal_neg_four : Cx.absVal ⟨-4, 0⟩ = 4 := by
  unfold Cx.absVal
  rw [show ((-4 : ℝ) * (-4) + 0 * 0) = 4 ^ 2 by norm_num]
  exact Real.sqrt_sq (by norm_num)

/-- C7 the bar macro: `|3-2|` tokenizes exactly like `abs(3-2)`, and
`evaluate("|3-7|", Rad)` is `Real(4.0)`. -/
theorem C7_bar_abs :
    tokenize ("|3-2|") = tokenize ("abs(3-2)") ∧
    evaluate 0 ("|3-7|") AngleMode.rad = Res.ok 4 := by
  refine ⟨by decide, ?_⟩
  have hast : parseStr ("|3-7|") = XRes.ok (Ast.call ("abs")
      [Ast.binOp BinOp.sub (Ast.number ⟨3, 0⟩) (Ast.number ⟨7, 0⟩)]) := rfl
  have h1 : evalAst 0 emptyVars emptyFns AngleMode.rad
      (Ast.binOp BinOp.sub (Ast.number ⟨3, 0⟩) (Ast.number ⟨7, 0⟩)) =
      Res.ok ⟨-4, 0⟩ := by
    simp [evalAst, binArith, Res.bind, Res.ofX, NumLit.toReal, Cx.sub, Cx.real]
    norm_num
  have habs : ∀ (z : Cx) (mode : AngleMode),
      applyFunction ("abs") z mode = XRes.ok (Cx.real z.absVal) := fun z mode => rfl
  have h2 : evalAst 0 emptyVars emptyFns AngleMode.rad (Ast.call ("abs")
      [Ast.binOp BinOp.sub (Ast.number ⟨3, 0⟩) (Ast.number ⟨7, 0⟩)]) =
      Res.ok (Cx.real 4) := by
    simp only [evalAst]
    simp only [evalCall]
    simp only [emptyFns]
    simp only [evalBuiltin]
    rw [if_neg (by decide : ¬ ("abs" : String) = "if"),
      if_neg (by decide : ¬ ("abs" : String) = "min"),
      if_neg (by decide : ¬ ("abs" : String) = "max"),
      if_neg (by decide : ¬ ("abs" : String) = "clamp"),
      if_neg (by decide : ¬ ("abs" : String) = "gcd"),
      if_neg (by decide : ¬ ("abs" : String) = "lcm")]
    simp only [evalOneArgB]
    simp only [h1, Res.bind, Res.ofX, habs, absVal_neg_four]
  simp only [evaluate, evaluateComplex, evaluateWithVars, evaluateWithVarsAndFns, hast,
    h2, Res.bind]
  rw [Cx.toCalcResult, if_pos]
  · simp [Cx.real]
  · simp [Cx.isReal, Cx.real]
    norm_num

theorem evalNum5 : evalAst 0 emptyVars emptyFns AngleMode.rad (Ast.number ⟨5, 0⟩) =
    Res.ok (Cx.real 5) := by
  simp only [evalAst]
  norm_num [NumLit.toReal]

theorem toCalc_real (x : ℝ) : (Cx.real x).toCalcResult = CalcResult.real x := by
  rw [Cx.toCalcResult, if_pos]
  · rfl
  · simp [Cx.isReal, Cx.real]
    norm_num

/-- C8 a variable stored under an uppercase name is unreachable from
expressions: `A = 5` stores the key `A` case-preserved and returns 5, but
evaluating `A` afterwards fails with `UndefinedName` (the tokenizer
lowercases the identifier to `a` before the lookup), while `get_var("A")`
still returns the stored value. -/
theorem C8_uppercase_var_unreachable :
    ((Session.new AngleMode.rad).eval 0 ("A = 5")).1 = Res.ok (CalcResult.real 5) ∧
    ((((Session.new AngleMode.rad).eval 0 ("A = 5")).2).eval 0 ("A")).1 =
      Res.err (Err.undefined ("Undefined variable: a")) ∧
    (Err.undefined ("Undefined variable: a")).kind = ErrorKind.undefinedName ∧
    (((Session.new AngleMode.rad).eval 0 ("A = 5")).2).getVar ("A") =
      some (CalcResult.real 5) := by
  have t1 : splitFnDef ((rustTrim (("A = 5" : String).toList)).asString) = none := rfl
  have t2 : splitAssignment ((rustTrim (("A = 5" : String).toList)).asString) =
      some ("A", "5") := rfl
  have t4 : parseStr ("5") = XRes.ok (Ast.number ⟨5, 0⟩) := rfl
  have heval : evaluateWithVarsAndFns 0 ("5") AngleMode.rad emptyVars emptyFns =
      Res.ok (CalcResult.real 5) := by
    simp only [evaluateWithVarsAndFns, t4, evalNum5, Res.bind, toCalc_real]
  have hsess : (Session.new AngleMode.rad).eval 0 ("A = 5") =
      (Res.ok (CalcResult.real 5),
       ⟨AngleMode.rad, (emptyVars.insert ("A") (Cx.real 5)), emptyFns⟩) := by
    simp only [Session.eval, Session.new, t1, t2, heval]
  have t5 : splitFnDef ((rustTrim (("A" : String).toList)).asString) = none := rfl
  have t6 : splitAssignment ((rustTrim (("A" : String).toList)).asString) = none := rfl
  have t7 : parseStr ("A") = XRes.ok (Ast.var ("a")) := rfl
  have hvar : evalAst 0 (emptyVars.insert ("A") (Cx.real 5)) emptyFns AngleMode.rad
      (Ast.var ("a")) = Res.err (Err.undefined ("Undefined variable: a")) := by
    simp only [evalAst, VarMap.insert]
    rw [if_neg (by decide : ¬ ("a" : String) = "A")]
    rfl
  have heval2 : evaluateWithVarsAndFns 0 ("A") AngleMode.rad
      (emptyVars.insert ("A") (Cx.real 5)) emptyFns =
      Res.err (Err.undefined ("Undefined variable: a")) := by
    simp only [evaluateWithVarsAndFns, t7, hvar, Res.bind]
  refine ⟨by rw [hsess], ?_, rfl, ?_⟩
  · rw [hsess]
    simp only [Session.eval, t5, t6]
    rw [show (rustTrim (("A" : String).toList)).asString = ("A" : String) from rfl]
    exact heval2
  · rw [hsess]
    show some ((Cx.real 5).toCalcResult) = some (CalcResult.real 5)
    rw [toCalc_real]

theorem rustFract_two_point_five : rustFract (25 / 10 : ℝ) = 1 / 2 := by
  rw [rustFract, rustTrunc, if_neg (by norm_num : ¬ (25 / 10 : ℝ) < 0)]
  norm_num

theorem factorial_two_point_five : factorial (25 / 10 : ℝ) =
    XRes.err (Err.domain ("Factorial only defined for non-negative integers")) := by
  rw [factorial, if_pos]
  right
  rw [rustFract_two_point_five]
  norm_num

/-- C3 (amended) integer-argument handling: a non-integer real makes
factorial fail with `DomainError` (not `ArgumentType`); the gcd/lcm
coercion `to_integer` rejects a real `1e-9` or more from the nearest
integer with `ArgumentType`, but silently rounds one within `1e-9`
(`2 + 1e-10` is accepted as `2`). -/
theorem C3_integer_coercion :
    factorial (25 / 10 : ℝ) =
      XRes.err (Err.domain ("Factorial only defined for non-negative integers")) ∧
    (Err.domain ("Factorial only defined for non-negative integers")).kind =
      ErrorKind.domainError ∧
    toInteger (5 / 2 : ℝ) ("gcd") =
      XRes.err (Err.argType ("gcd requires integer arguments, got ")) ∧
    (Err.argType ("gcd requires integer arguments, got ")).kind =
      ErrorKind.argumentType ∧
    toInteger (2 + 1 / 10 ^ 10 : ℝ) ("gcd") = XRes.ok 2 := by
  refine ⟨factorial_two_point_five, rfl, ?_, rfl, ?_⟩
  · have hr3 : rustRound (5 / 2 : ℝ) = ((3 : ℤ) : ℝ) := by
      rw [rustRound, if_neg (by norm_num : ¬ (5 / 2 : ℝ) < 0)]
      norm_num
    rw [toInteger, hr3, if_pos]
    · rfl
    · rw [show |(5 / 2 : ℝ) - ((3 : ℤ) : ℝ)| = 1 / 2 by
        rw [show (5 / 2 : ℝ) - ((3 : ℤ) : ℝ) = -(1 / 2) by norm_num]
        rw [abs_neg, abs_of_nonneg (by norm_num)]]
      norm_num
  · have hr : rustRound (2 + 1 / 10 ^ 10 : ℝ) = ((2 : ℤ) : ℝ) := by
      rw [rustRound, if_neg (by norm_num : ¬ (2 + 1 / 10 ^ 10 : ℝ) < 0)]
      norm_num
    rw [toInteger, hr, if_neg, if_neg]
    · norm_num
    · rw [show |((2 : ℤ) : ℝ)| = 2 by rw [abs_of_nonneg] <;> norm_num]
      norm_num
    · rw [show |(2 + 1 / 10 ^ 10 : ℝ) - ((2 : ℤ) : ℝ)| = 1 / 10 ^ 10 by
        rw [show (2 + 1 / 10 ^ 10 : ℝ) - ((2 : ℤ) : ℝ) = 1 / 10 ^ 10 by norm_num]
        rw [abs_of_nonneg (by norm_num)]]
      norm_num

/-- C3 counterexample to the original wording: `evaluate("2.5!")` fails
with kind `DomainError`, not `ArgumentType`. -/
theorem C3_factorial_kind_counterexample :
    evaluate 0 ("2.5!") AngleMode.rad =
      Res.err (Err.domain ("Factorial only defined for non-negative integers")) ∧
    (Err.domain ("Factorial only defined for non-negative integers")).kind ≠
      ErrorKind.argumentType := by
  refine ⟨?_, by decide⟩
  have hast : parseStr ("2.5!") = XRes.ok (Ast.fact (Ast.number ⟨25, 1⟩)) := rfl
  have hnum : evalAst 0 emptyVars emptyFns AngleMode.rad (Ast.number ⟨25, 1⟩) =
      Res.ok (Cx.real (25 / 10)) := by
    simp only [evalAst]
    norm_num [NumLit.toReal]
  have hfact : evalAst 0 emptyVars emptyFns AngleMode.rad
      (Ast.fact (Ast.number ⟨25, 1⟩)) =
      Res.err (Err.domain ("Factorial only defined for non-negative integers")) := by
    simp only [evalAst, hnum, Res.bind]
    rw [if_neg]
    · rw [show (Cx.real (25 / 10)).re = (25 / 10 : ℝ) from rfl, factorial_two_point_five]
      rfl
    · intro hc
      exact hc (by simp [Cx.isReal, Cx.real]; norm_num)
  simp only [evaluate, evaluateComplex, evaluateWithVars, evaluateWithVarsAndFns, hast,
    hfact, Res.bind]

/-- The function table holding `f(x) = x + 1`. -/
noncomputable def fnsF : FnMap :=
  emptyFns.insert ("f") (["x"], Ast.binOp BinOp.add (Ast.var ("x")) (Ast.number ⟨1, 0⟩))

theorem evalBodyF (fuel : Nat) (vars : VarMap) (v : ℝ)
    (hx : vars ("x") = some (Cx.real v)) :
    evalAst fuel vars fnsF AngleMode.rad
      (Ast.binOp BinOp.add (Ast.var ("x")) (Ast.number ⟨1, 0⟩)) =
      Res.ok (Cx.real (v + 1)) := by
  simp only [evalAst, hx, Res.bind, Res.ofX, binArith]
  norm_num [NumLit.toReal, Cx.add, Cx.real]

theorem evalCallF (k : Nat) (vars : VarMap) (a : Ast) (v : ℝ)
    (ha : evalAst (k + 1) vars fnsF AngleMode.rad a = Res.ok (Cx.real v)) :
    evalAst (k + 1) vars fnsF AngleMode.rad (Ast.call ("f") [a]) =
      Res.ok (Cx.real (v + 1)) := by
  simp only [evalAst]
  simp only [evalCall]
  rw [show fnsF ("f") =
    some (["x"], Ast.binOp BinOp.add (Ast.var ("x")) (Ast.number ⟨1, 0⟩)) from rfl]
  dsimp only
  rw [if_neg (by simp)]
  simp only [evalBind, ha, Res.bind]
  exact evalBodyF k (vars.insert ("x") (Cx.real v)) v (by simp [VarMap.insert])

/-- C5 user-defined function calls: `f(x) = x + 1` is stored (the define
returns 0); `f(f(2))` evaluates to `Real(4.0)` (the argument is evaluated
in the caller's environment, then the body in the caller's environment plus
the parameter binding); a call with the wrong arity fails with
`ArgumentCount`; an argument may read the caller's variables (`a = 5` then
`f(a)` gives 6). -/
theorem C5_user_functions :
    (Session.new AngleMode.rad).eval 2 ("f(x) = x + 1") =
      (Res.ok (CalcResult.real 0), ⟨AngleMode.rad, emptyVars, fnsF⟩) ∧
    ((⟨AngleMode.rad, emptyVars, fnsF⟩ : Session).eval 2 ("f(f(2))")).1 =
      Res.ok (CalcResult.real 4) ∧
    ((⟨AngleMode.rad, emptyVars, fnsF⟩ : Session).eval 2 ("f(1, 2)")).1 =
      Res.err (Err.argCount ("f() expects 1 argument(s), got 2")) ∧
    ((⟨AngleMode.rad, emptyVars.insert ("a") (Cx.real 5), fnsF⟩ : Session).eval
        2 ("f(a)")).1 = Res.ok (CalcResult.real 6) := by
  have hnum2 : ∀ vars, evalAst 2 vars fnsF AngleMode.rad (Ast.number ⟨2, 0⟩) =
      Res.ok (Cx.real 2) := by
    intro vars
    simp only [evalAst]
    norm_num [NumLit.toReal]
  refine ⟨?_, ?_, ?_, ?_⟩
  · have hdef : splitFnDef ((rustTrim (("f(x) = x + 1" : String).toList)).asString) =
        some ("f", ["x"], "x + 1") := rfl
    have hbody : parseStr ("x + 1") =
        XRes.ok (Ast.binOp BinOp.add (Ast.var ("x")) (Ast.number ⟨1, 0⟩)) := rfl
    simp only [Session.eval, Session.new, hdef, hbody]
    rw [show (asciiLower (("f" : String).toList)).asString = ("f" : String) from rfl]
    rfl
  · have hsf : splitFnDef ((rustTrim (("f(f(2))" : String).toList)).asString) = none := rfl
    have hsa : splitAssignment ((rustTrim (("f(f(2))" : String).toList)).asString) =
        none := rfl
    have hp : parseStr ("f(f(2))") =
        XRes.ok (Ast.call ("f") [Ast.call ("f") [Ast.number ⟨2, 0⟩]]) := rfl
    have hinner := evalCallF 1 emptyVars (Ast.number ⟨2, 0⟩) 2 (hnum2 emptyVars)
    have houter := evalCallF 1 emptyVars (Ast.call ("f") [Ast.number ⟨2, 0⟩]) 3
      (by rw [hinner]; norm_num)
    simp only [Session.eval, hsf, hsa]
    rw [show (rustTrim (("f(f(2))" : String).toList)).asString = ("f(f(2))" : String)
      from rfl]
    simp only [evaluateWithVarsAndFns, hp, Res.bind]
    norm_num at houter
    rw [houter]
    dsimp only
    rw [toCalc_real]
  · have hsf : splitFnDef ((rustTrim (("f(1, 2)" : String).toList)).asString) = none := rfl
    have hsa : splitAssignment ((rustTrim (("f(1, 2)" : String).toList)).asString) =
        none := rfl
    have hp : parseStr ("f(1, 2)") =
        XRes.ok (Ast.call ("f") [Ast.number ⟨1, 0⟩, Ast.number ⟨2, 0⟩]) := rfl
    simp only [Session.eval, hsf, hsa]
    rw [show (rustTrim (("f(1, 2)" : String).toList)).asString = ("f(1, 2)" : String)
      from rfl]
    simp only [evaluateWithVarsAndFns, hp, Res.bind]
    have harity : evalAst 2 emptyVars fnsF AngleMode.rad
        (Ast.call ("f") [Ast.number ⟨1, 0⟩, Ast.number ⟨2, 0⟩]) =
        Res.err (Err.argCount ("f() expects 1 argument(s), got 2")) := by
      simp only [evalAst]
      simp only [evalCall]
      rw [show fnsF ("f") =
        some (["x"], Ast.binOp BinOp.add (Ast.var ("x")) (Ast.number ⟨1, 0⟩)) from rfl]
      dsimp only
      rw [if_pos (by simp)]
      rfl
    rw [harity]
  · have hsf : splitFnDef ((rustTrim (("f(a)" : String).toList)).asString) = none := rfl
    have hsa : splitAssignment ((rustTrim (("f(a)" : String).toList)).asString) =
        none := rfl
    have hp : parseStr ("f(a)") = XRes.ok (Ast.call ("f") [Ast.var ("a")]) := rfl
    have hvara : evalAst 2 (emptyVars.insert ("a") (Cx.real 5)) fnsF AngleMode.rad
        (Ast.var ("a")) = Res.ok (Cx.real 5) := by
      simp only [evalAst]
      rw [show (emptyVars.insert ("a") (Cx.real 5)) ("a") = some (Cx.real 5) from rfl]
    have hcall := evalCallF 1 (emptyVars.insert ("a") (Cx.real 5)) (Ast.var ("a")) 5 hvara
    simp only [Session.eval, hsf, hsa]
    rw [show (rustTrim (("f(a)" : String).toList)).asString = ("f(a)" : String) from rfl]
    simp only [evaluateWithVarsAndFns, hp, Res.bind]
    norm_num at hcall
    rw [hcall]
    dsimp only
    rw [toCalc_real]

theorem splitAssignAux_isSome_iff :
    ∀ (rest cs : List Char) (j : Nat) (prev : Option Char),
      rest = cs.drop j →
      (∀ k, j = k + 1 → prev = cs[k]?) →
      (j = 0 → prev = none) →
      ((splitAssignAux cs prev j rest).isSome ↔ ∃ i, j ≤ i ∧ assignPred cs i) := by
  intro rest
  induction rest with
  | nil =>
    intro cs j prev hdrop hprev hzero
    simp only [splitAssignAux, Option.isSome_none, Bool.false_eq_true, false_iff]
    rintro ⟨i, hij, heq, -⟩
    have hlen : cs.length ≤ j := List.drop_eq_nil_iff.mp hdrop.symm
    rw [List.getElem?_eq_none_iff.mpr (le_trans hlen hij)] at heq
    cases heq
  | cons c rest' ih =>
    intro cs j prev hdrop hprev hzero
    have hcj : cs[j]? = some c := by
      have := List.getElem?_drop cs j 0
      rw [← hdrop] at this
      simpa using this.symm
    have hrest' : rest' = cs.drop (j + 1) := by
      have h1 : cs.drop (j + 1) = (cs.drop j).drop 1 := by
        rw [List.drop_drop, Nat.add_comm]
      rw [h1, ← hdrop]
      simp
    have hhead : rest'.head? = cs[j + 1]? := by
      rw [hrest', List.head?_drop]
    have hprevok :
        (prev ≠ some '!' ∧ prev ≠ some '<' ∧ prev ≠ some '>') ↔
          (∀ k, j = k + 1 → (cs[k]? ≠ some '!' ∧ cs[k]? ≠ some '<' ∧ cs[k]? ≠ some '>')) := by
      cases j with
      | zero =>
        rw [hzero rfl]
        simp
      | succ k0 =>
        rw [hprev k0 rfl]
        constructor
        · intro h k hk
          cases Nat.succ_injective hk
          exact h
        · intro h
          exact h k0 rfl
    by_cases hcond : (c = '=' ∧ (prev ≠ some '!' ∧ prev ≠ some '<' ∧ prev ≠ some '>') ∧
        rest'.head? ≠ some '=' ∧ identOk (rustTrim (cs.take j)) = true)
    · rw [splitAssignAux, if_pos hcond]
      simp only [Option.isSome_some, true_iff]
      refine ⟨j, le_refl j, ?_, ?_, ?_, hcond.2.2.2⟩
      · rw [hcj, hcond.1]
      · exact hprevok.mp hcond.2.1
      · rw [← hhead]
        exact hcond.2.2.1
    · rw [splitAssignAux, if_neg hcond]
      rw [ih cs (j + 1) (some c)
        hrest'
        (fun k hk => by cases Nat.succ_injective hk; exact hcj.symm)
        (fun h => absurd h (Nat.succ_ne_zero j))]
      have hnotj : ¬ assignPred cs j := by
        rintro ⟨h1, h2, h3, h4⟩
        refine hcond ⟨?_, ?_, ?_, h4⟩
        · rw [hcj] at h1
          exact (Option.some_injective _ h1.symm).symm
        · exact hprevok.mpr h2
        · rw [hhead]
          exact h3
      constructor
      · rintro ⟨i, hij, hp⟩
        exact ⟨i, le_trans (Nat.le_succ j) hij, hp⟩
      · rintro ⟨i, hij, hp⟩
        rcases Nat.lt_or_ge j i with hlt | hge
        · exact ⟨i, hlt, hp⟩
        · exact absurd hp (by rw [le_antisymm hij hge] at hnotj; exact hnotj)

/-- `split_assignment` succeeds exactly when some index of the line
satisfies `assignPred` (no condition on the right-hand side). -/
theorem splitAssignment_isSome_iff (line : String) :
    (splitAssignment line).isSome ↔ ∃ i, assignPred line.toList i := by
  unfold splitAssignment
  dsimp only
  rw [show ∀ (x : Option Nat) (f : Nat → String × String),
      (Option.map f x).isSome = x.isSome from fun x f => by cases x <;> rfl]
  rw [splitAssignAux_isSome_iff line.toList line.toList 0 none
    (List.drop_zero line.toList).symm
    (fun k hk => absurd hk (by omega))
    (fun _ => rfl)]
  constructor
  · rintro ⟨i, -, hp⟩
    exact ⟨i, hp⟩
  · rintro ⟨i, hp⟩
    exact ⟨i, Nat.zero_le i, hp⟩

/-- C2 (amended) assignment handling: a line is treated as an assignment
exactly when some `=` has previous character not `!`/`<`/`>`, next character
not `=`, and a valid identifier on the left — with NO condition on the
right-hand side; on a match (when the line is not a function definition)
the right-hand side is evaluated in the current environment and function
table, the result is stored under the case-preserved left-hand side, and
returned. -/
theorem C2_assignment :
    (∀ line : String, (splitAssignment line).isSome ↔ ∃ i, assignPred line.toList i) ∧
    (∀ (s : Session) (fuel : Nat) (line lhs rhs : String) (result : CalcResult),
      splitFnDef ((rustTrim line.toList).asString) = none →
      splitAssignment ((rustTrim line.toList).asString) = some (lhs, rhs) →
      evaluateWithVarsAndFns fuel rhs s.angle_mode s.vars s.fns = Res.ok result →
      s.eval fuel line = (Res.ok result,
        { s with vars := s.vars.insert lhs (match result with
            | CalcResult.real value => Cx.real value
            | CalcResult.complex re im => ⟨re, im⟩) })) := by
  refine ⟨splitAssignment_isSome_iff, ?_⟩
  intro s fuel line lhs rhs result h1 h2 h3
  simp only [Session.eval, h1, h2, h3]

/-- C2 witness: `x = 2` in a fresh session is treated as an assignment and
returns 2. -/
theorem C2_assignment_witness :
    ((Session.new AngleMode.rad).eval 0 ("x = 2")).1 = Res.ok (CalcResult.real 2) := by
  have heval : evaluateWithVarsAndFns 0 ("2") (Session.new AngleMode.rad).angle_mode
      (Session.new AngleMode.rad).vars (Session.new AngleMode.rad).fns =
      Res.ok (CalcResult.real 2) := by
    have t4 : parseStr ("2") = XRes.ok (Ast.number ⟨2, 0⟩) := rfl
    have h5 : evalAst 0 emptyVars emptyFns AngleMode.rad (Ast.number ⟨2, 0⟩) =
        Res.ok (Cx.real 2) := by
      simp only [evalAst]
      norm_num [NumLit.toReal]
    simp only [Session.new, evaluateWithVarsAndFns, t4, h5, Res.bind, toCalc_real]
  rw [C2_assignment.2 (Session.new AngleMode.rad) 0 ("x = 2") ("x") ("2")
    (CalcResult.real 2) rfl rfl heval]

/-- C2 counterexample to the original wording: the right-hand side is not
required to be non-empty — `x=` is treated as an assignment (its empty
right-hand side is parsed, failing with the parser's end-of-expression
error), whereas plain expression evaluation of `x=` fails in the tokenizer
with a different message. -/
theorem C2_empty_rhs_counterexample :
    splitAssignment ("x=") = some ("x", "") ∧
    ((Session.new AngleMode.rad).eval 0 ("x=")).1 =
      Res.err (Err.parse ("Unexpected end of expression")) ∧
    evaluate 0 ("x=") AngleMode.rad =
      Res.err (Err.parse ("Unexpected '=' in expression (use '==' for equality)")) := by
  refine ⟨rfl, ?_, ?_⟩
  · have h1 : splitFnDef ((rustTrim (("x=" : String).toList)).asString) = none := rfl
    have h2 : splitAssignment ((rustTrim (("x=" : String).toList)).asString) =
        some ("x", "") := rfl
    have h3 : parseStr ("") = XRes.err (Err.parse ("Unexpected end of expression")) := rfl
    simp only [Session.eval, h1, h2, evaluateWithVarsAndFns, h3]
  · have h4 : parseStr ("x=") =
        XRes.err (Err.parse ("Unexpected '=' in expression (use '==' for equality)")) := rfl
    simp only [evaluate, evaluateComplex, evaluateWithVars, evaluateWithVarsAndFns, h4]

theorem evalAt_one (fuel : Nat) (var : String) (x : ℝ) (mode : AngleMode) :
    evalAt fuel (Ast.number ⟨1, 0⟩) var x mode = Res.ok 1 := by
  have h1 : evalAst fuel (emptyVars.insert var (Cx.real x)) emptyFns mode
      (Ast.number ⟨1, 0⟩) = Res.ok (Cx.real 1) := by
    simp only [evalAst]
    norm_num [NumLit.toReal]
  rw [evalAt, h1]
  simp only [Res.bind]
  rw [if_pos (by simp [Cx.isReal, Cx.real]; norm_num)]
  rfl

theorem sumLoop_one (fuel : Nat) (var : String) (mode : AngleMode) :
    ∀ (count : Nat) (k : Int) (acc : ℝ),
      sumLoop fuel (Ast.number ⟨1, 0⟩) var mode k count acc = Res.ok (acc + count) := by
  intro count
  induction count with
  | zero =>
    intro k acc
    simp [sumLoop]
  | succ n ih =>
    intro k acc
    rw [sumLoop, evalAt_one]
    simp only [Res.bind]
    rw [ih]
    norm_num
    ring

theorem prodLoop_one (fuel : Nat) (var : String) (mode : AngleMode) :
    ∀ (count : Nat) (k : Int) (acc : ℝ),
      prodLoop fuel (Ast.number ⟨1, 0⟩) var mode k count acc = Res.ok acc := by
  intro count
  induction count with
  | zero =>
    intro k acc
    simp [prodLoop]
  | succ n ih =>
    intro k acc
    rw [prodLoop, evalAt_one]
    simp only [Res.bind]
    rw [ih]
    norm_num

theorem wrap64_eq_self {d : Int} (h1 : -(2 ^ 63) ≤ d) (h2 : d < 2 ^ 63) :
    wrap64 d = d := by
  rw [wrap64, Int.emod_eq_of_lt (by omega) (by omega)]
  omega

/-- C6 (amended) `sum`/`prod` ranges: the range guard compares the WRAPPED
i64 difference `to - from` against 10,000,000 (so it errors `RangeTooLarge`
exactly when the wrapped difference exceeds the cap); within the cap the
inclusive integer range is iterated, and `sum("1", var, a, b) = b − a + 1`,
`prod("1", var, a, b) = 1` for integers `a ≤ b`. -/
theorem C6_sum_prod_range (a b : Int) (fuel : Nat) (var : String) (mode : AngleMode)
    (hle : a ≤ b) (hcap : b - a ≤ MAX_TERMS) :
    sumF fuel ("1") var a b mode = Res.ok ((b - a + 1 : ℤ) : ℝ) ∧
    prodF fuel ("1") var a b mode = Res.ok 1 ∧
    (∀ (expr var2 : String) (c d : Int), wrap64 (d - c) > MAX_TERMS →
      sumF fuel expr var2 c d mode =
        Res.err (Err.rangeTooLarge ("Sum range too large (max 10000000 terms)")) ∧
      prodF fuel expr var2 c d mode =
        Res.err (Err.rangeTooLarge ("Product range too large (max 10000000 terms)"))) := by
  have hwrap : wrap64 (b - a) = b - a := by
    apply wrap64_eq_self
    · have : (0 : ℤ) ≤ b - a := by omega
      have h63 : (0 : ℤ) ≤ 2 ^ 63 := by positivity
      omega
    · have : (MAX_TERMS : ℤ) < 2 ^ 63 := by decide
      omega
  have hng : ¬ wrap64 (b - a) > MAX_TERMS := by
    rw [hwrap]
    omega
  have hp1 : parseStr ("1") = XRes.ok (Ast.number ⟨1, 0⟩) := rfl
  refine ⟨?_, ?_, ?_⟩
  · rw [sumF, if_neg hng, hp1]
    dsimp only
    rw [sumLoop_one]
    have h3 : (((b - a + 1).toNat : ℕ) : ℝ) = ((b - a + 1 : ℤ) : ℝ) := by
      exact_mod_cast congrArg (fun z : ℤ => (z : ℝ)) (Int.toNat_of_nonneg
        (show (0 : ℤ) ≤ b - a + 1 by omega))
    simp only [zero_add, h3]
  · rw [prodF, if_neg hng, hp1]
    dsimp only
    rw [prodLoop_one]
  · intro expr var2 c d hw
    constructor
    · rw [sumF, if_pos hw]
    · rw [prodF, if_pos hw]

/-- C6 witness: `sum("1", k, 0, 2) = 3` and `prod("1", k, 0, 2) = 1`. -/
theorem C6_sum_prod_range_witness :
    sumF 0 ("1") ("k") 0 2 AngleMode.rad = Res.ok ((2 - 0 + 1 : ℤ) : ℝ) ∧
    prodF 0 ("1") ("k") 0 2 AngleMode.rad = Res.ok 1 :=
  ⟨(C6_sum_prod_range 0 2 0 ("k") AngleMode.rad (by decide) (by decide)).1,
   (C6_sum_prod_range 0 2 0 ("k") AngleMode.rad (by decide) (by decide)).2.1⟩

/-- C6 counterexample to the original wording: with `from = -2^62` and
`to = 2^62` the true difference `2^63` far exceeds 10,000,000, yet the
wrapped guard sees `-2^63` and the sum SUCCEEDS (iterating the whole
range). -/
theorem C6_wrap_counterexample :
    (2 ^ 62 : ℤ) - (-(2 ^ 62)) > MAX_TERMS ∧
    sumF 0 ("1") ("k") (-(2 ^ 62)) (2 ^ 62) AngleMode.rad =
      Res.ok ((((2 ^ 62 : ℤ) - (-(2 ^ 62)) + 1).toNat : ℕ) : ℝ) := by
  constructor
  · decide
  · have hw : wrap64 ((2 ^ 62 : ℤ) - (-(2 ^ 62))) = -(2 ^ 63) := by decide
    have hng : ¬ wrap64 ((2 ^ 62 : ℤ) - (-(2 ^ 62))) > MAX_TERMS := by
      rw [hw]
      decide
    rw [sumF, if_neg hng]
    rw [show parseStr ("1") = XRes.ok (Ast.number ⟨1, 0⟩) from rfl]
    dsimp only
    rw [sumLoop_one]
    norm_num

theorem parseTokens_of_ok {ts : List Token} {a : Ast} {rest : List Token}
    (hp : parseExpr (parseFuel ts) ts = PRes.ok a rest) :
    parseTokens ts = (match rest with
      | [] => XRes.ok a
      | _ => XRes.err (Err.parse ("Unexpected token after expression"))) := by
  unfold parseTokens
  split
  case _ a' rest' heq =>
    rw [hp] at heq
    cases heq
    rfl
  case _ e heq =>
    rw [hp] at heq
    cases heq
  case _ heq =>
    rw [hp] at heq
    cases heq

theorem parseTokens_of_err {ts : List Token} {e : Err}
    (hp : parseExpr (parseFuel ts) ts = PRes.err e) : parseTokens ts = XRes.err e := by
  unfold parseTokens
  split
  case _ a' rest' heq =>
    rw [hp] at heq
    cases heq
  case _ e' heq =>
    rw [hp] at heq
    cases heq
    rfl
  case _ heq =>
    rw [hp] at heq
    cases heq

/-- C10 a `^` directly after a postfix `!` never parses: whatever surrounds
the adjacent `Factorial, Pow` pair, `parse_str`'s token phase fails with a
`ParseError` (either inside the recursive descent or as trailing input);
concretely `3!^2` fails with "Unexpected token after expression" while
`(3!)^2` parses. -/
theorem C10_postfix_factorial_pow :
    (∀ u v : List Token, ∃ e,
      parseTokens (u ++ Token.factorial :: Token.pow :: v) = XRes.err e ∧
      e.kind = ErrorKind.parseError) ∧
    parseStr ("3!^2") = XRes.err (Err.parse ("Unexpected token after expression")) ∧
    parseStr ("(3!)^2") = XRes.ok (Ast.binOp BinOp.pow (Ast.fact (Ast.number ⟨3, 0⟩))
      (Ast.number ⟨2, 0⟩)) := by
  refine ⟨?_, rfl, rfl⟩
  intro u v
  have hK : keepK v (u ++ Token.factorial :: Token.pow :: v) := Or.inl ⟨u, rfl⟩
  cases hp : parseExpr (parseFuel (u ++ Token.factorial :: Token.pow :: v))
      (u ++ Token.factorial :: Token.pow :: v) with
  | ok a rest =>
    have hkeep := (parseKeep v (parseFuel (u ++ Token.factorial :: Token.pow :: v))).1
      (u ++ Token.factorial :: Token.pow :: v) a rest hK hp
    have hne : rest ≠ [] := by
      rcases hkeep with hsuf | heq
      · intro h0
        rw [h0] at hsuf
        cases List.suffix_nil.mp hsuf
      · intro h0
        rw [h0] at heq
        cases heq
    refine ⟨Err.parse ("Unexpected token after expression"), ?_, rfl⟩
    rw [parseTokens_of_ok hp]
    cases rest with
    | nil => exact absurd rfl hne
    | cons t r => rfl
  | err e =>
    have hkind := ((parseProgress (parseFuel (u ++ Token.factorial :: Token.pow :: v))).1
      (u ++ Token.factorial :: Token.pow :: v)).2 e hp
    exact ⟨e, parseTokens_of_err hp, hkind⟩
  | noFuel => exact absurd hp (parseExpr_ne_noFuel _)

/-! ### Tokenizer results do not depend on the running position
(the position feeds only further positions and one error message),
needed to relate `tokenize ("-" ++ s)` to `tokenize s` for claim C1. -/

def stepOkPart : XRes (List Token × Nat × List Char) → Option (List Token × List Char)
  | XRes.ok (ts, _, cs) => some (ts, cs)
  | XRes.err _ => none

theorem tokBar_okPart (p q : Nat) (rest : List Char) :
    stepOkPart (tokBar p rest) = stepOkPart (tokBar q rest) := rfl

theorem tokDot_okPart (p q : Nat) (rest : List Char) :
    stepOkPart (tokDot p rest) = stepOkPart (tokDot q rest) := by
  unfold tokDot
  dsimp only
  split <;> rfl

theorem tokNum_okPart (p q : Nat) (c : Char) (rest : List Char) :
    stepOkPart (tokNum p c rest) = stepOkPart (tokNum q c rest) := by
  unfold tokNum
  dsimp only
  repeat' split
  all_goals rfl

theorem tokIdentTok_okPart (p q : Nat) (c : Char) (rest : List Char) :
    stepOkPart (tokIdentTok p c rest) = stepOkPart (tokIdentTok q c rest) := by
  unfold tokIdentTok
  dsimp only
  repeat' split
  all_goals rfl

theorem tokStep_okPart (p q : Nat) (c : Char) (rest : List Char) :
    stepOkPart (tokStep p c rest) = stepOkPart (tokStep q c rest) := by
  unfold tokStep
  cases hcc : charClass c
  all_goals solve
    | rfl
    | (exact tokDot_okPart p q rest)
    | (exact tokNum_okPart p q c rest)
    | (exact tokIdentTok_okPart p q c rest)
    | (dsimp only; split <;> rfl)

theorem tokenizeAux_ok_posIndep :
    ∀ (fuel p q : Nat) (cs : List Char) (ts : List Token),
      tokenizeAux fuel p cs = some (XRes.ok ts) →
      tokenizeAux fuel q cs = some (XRes.ok ts) := by
  intro fuel
  induction fuel with
  | zero =>
    intro p q cs ts h
    simp [tokenizeAux] at h
  | succ n ih =>
    intro p q cs ts h
    cases cs with
    | nil => simpa [tokenizeAux] using h
    | cons c rest =>
      rw [tokenizeAux] at h ⊢
      cases hsp : tokStep p c rest with
      | err e =>
        rw [hsp] at h
        simp at h
      | ok r =>
        obtain ⟨pre, p', cs'⟩ := r
        rw [hsp] at h
        have hq := tokStep_okPart p q c rest
        rw [hsp] at hq
        cases hsq : tokStep q c rest with
        | err e =>
          rw [hsq] at hq
          cases hq
        | ok r2 =>
          obtain ⟨pre2, q', cs2'⟩ := r2
          rw [hsq] at hq
          simp only [stepOkPart, Option.some.injEq, Prod.mk.injEq] at hq
          obtain ⟨hpre, hcs⟩ := hq
          subst hpre
          subst hcs
          dsimp only at h ⊢
          cases hx : tokenizeAux n p' cs' with
          | none =>
            rw [hx] at h
            simp at h
          | some r3 =>
            rw [hx] at h
            cases r3 with
            | err e =>
              simp [consToks] at h
            | ok ts2 =>
              rw [ih p' q' cs' ts2 hx]
              exact h

theorem tokenize_eq_of_aux {s : String} {v : XRes (List Token)}
    (h : tokenizeAux (s.toList.length + 1) 0 s.toList = some v) : tokenize s = v := by
  unfold tokenize
  have h2 := Option.some_get (tokenizeAux_isSome (s.toList.length + 1) 0 s.toList
    (Nat.lt_succ_self _))
  exact Option.some_injective _ (h2.trans h)

/-- Prepending `-` to any string that tokenizes prepends a `Minus` token. -/
theorem tokenize_cons_minus {s : String} {ts : List Token}
    (h : tokenize s = XRes.ok ts) :
    tokenize ("-" ++ s) = XRes.ok (Token.minus :: ts) := by
  have h0 : tokenizeAux (s.toList.length + 1) 0 s.toList = some (XRes.ok ts) := by
    have h2 := Option.some_get (tokenizeAux_isSome (s.toList.length + 1) 0 s.toList
      (Nat.lt_succ_self _))
    rw [show (tokenizeAux (s.toList.length + 1) 0 s.toList).get
      (tokenizeAux_isSome (s.toList.length + 1) 0 s.toList (Nat.lt_succ_self _)) =
      tokenize s from rfl, h] at h2
    exact h2.symm
  have h1 := tokenizeAux_ok_posIndep (s.toList.length + 1) 0 1 s.toList ts h0
  apply tokenize_eq_of_aux
  have hl : ("-" ++ s).toList = '-' :: s.toList := rfl
  rw [hl]
  rw [show ('-' :: s.toList).length + 1 = (s.toList.length + 1) + 1 from by simp]
  simp only [tokenizeAux]
  rw [show tokStep 0 '-' s.toList = XRes.ok ([Token.minus], 1, s.toList) from rfl]
  dsimp only
  rw [h1]
  rfl

theorem preOp_otherTok {t : Token} {op : PreOp} (h : preOpOf t = some op)
    (rest : List Token) : primClass (t :: rest) = PrimClass.otherTok := by
  cases t
  all_goals first
    | rfl
    | simp [preOpOf] at h

/-- Climbing from a full-input `parse_unary` result back up the precedence
tower: with no tokens left, every loop above passes the value through. -/
theorem upChain (a : Ast) (m : Nat) (ts : List Token)
    (h : parseUnary (m + 1) ts = PRes.ok a []) :
    parseExpr (m + 8) ts = PRes.ok a [] := by
  have hpow : parsePower (m + 2) ts = PRes.ok a [] := by
    simp only [parsePower]
    rw [h]
    simp [chainRes, tokTail, factLoop]
  have hterm : parseTerm (m + 3) ts = PRes.ok a [] := by
    simp only [parseTerm]
    rw [hpow]
    simp [chainRes, termLoop, opSplit, headImplicitMul]
  have hadd : parseAdd (m + 4) ts = PRes.ok a [] := by
    simp only [parseAdd]
    rw [hterm]
    simp [chainRes, addLoop, opSplit]
  have hcmp : parseComparison (m + 5) ts = PRes.ok a [] := by
    simp only [parseComparison]
    rw [hadd]
    simp [chainRes, cmpLoop, opSplit]
  have hand : parseAnd (m + 6) ts = PRes.ok a [] := by
    simp only [parseAnd]
    rw [hcmp]
    simp [chainRes, andLoop, opSplit]
  have hor : parseOr (m + 7) ts = PRes.ok a [] := by
    simp only [parseOr]
    rw [hand]
    simp [chainRes, orLoop, opSplit]
  simp only [parseExpr]
  exact hor

theorem unary_of_prim {ts : List Token} {ast : Ast}
    (h : ∀ f, 16 * ts.length + 1 ≤ f → parsePrimary f ts = PRes.ok ast [])
    {m : Nat} (hm : 16 * ts.length + 1 ≤ m) :
    parseUnary (m + 1) ts = PRes.ok ast [] := by
  cases ts with
  | nil =>
    simp only [parseUnary]
    exact h m hm
  | cons t rest =>
    cases hpre : preOpOf t with
    | none =>
      simp only [parseUnary, hpre]
      exact h m hm
    | some op =>
      exfalso
      have hp := h m hm
      obtain ⟨m', rfl⟩ : ∃ k, m = k + 1 := ⟨m - 1, by omega⟩
      rw [parsePrimary, preOp_otherTok hpre rest] at hp
      cases hp

theorem unary_of_minus {ts : List Token} {ast : Ast}
    (h : ∀ f, 16 * ts.length + 1 ≤ f → parsePrimary f ts = PRes.ok ast [])
    {m : Nat} (hm : 16 * ts.length + 1 ≤ m) :
    parseUnary (m + 1) (Token.minus :: ts) = PRes.ok (Ast.unaryNeg ast) [] := by
  simp only [parseUnary, preOpOf]
  rw [show parsePrimary m ts = PRes.ok ast [] from ?_]
  · rfl
  · obtain ⟨m', rfl⟩ : ∃ k, m = k + 1 := ⟨m - 1, by omega⟩
    exact h (m' + 1) hm

/-- A primary expression parses the same with a prefixed `-`, up to one
`UnaryNeg` node. -/
theorem parseStr_minus {s : String} {ts : List Token} {ast : Ast}
    (htok : tokenize s = XRes.ok ts)
    (hprim : ∀ f, 16 * ts.length + 1 ≤ f → parsePrimary f ts = PRes.ok ast []) :
    parseStr s = XRes.ok ast ∧ parseStr ("-" ++ s) = XRes.ok (Ast.unaryNeg ast) := by
  constructor
  · have hu : parseUnary ((16 * ts.length + 8) + 1) ts = PRes.ok ast [] :=
      unary_of_prim hprim (by omega)
    have he := upChain ast (16 * ts.length + 8) ts hu
    have hfuel : parseFuel ts = (16 * ts.length + 8) + 8 := by
      unfold parseFuel
      omega
    rw [parseStr, htok]
    dsimp only
    rw [parseTokens_of_ok (by rw [hfuel]; exact he)]
  · have htokm := tokenize_cons_minus htok
    have hu : parseUnary ((16 * ts.length + 24) + 1) (Token.minus :: ts) =
        PRes.ok (Ast.unaryNeg ast) [] := unary_of_minus hprim (by omega)
    have he := upChain (Ast.unaryNeg ast) (16 * ts.length + 24) (Token.minus :: ts) hu
    have hfuel : parseFuel (Token.minus :: ts) = (16 * ts.length + 24) + 8 := by
      unfold parseFuel
      simp
      omega
    rw [parseStr, htokm]
    dsimp only
    rw [parseTokens_of_ok (by rw [hfuel]; exact he)]

theorem neg_isReal {z : Cx} (h : z.isReal) : (Cx.neg z).isReal := by
  simpa [Cx.isReal, Cx.neg, abs_neg] using h

theorem evaluate_of_ast {fuel : Nat} {s : String} {mode : AngleMode} {ast : Ast} {z : Cx}
    (hp : parseStr s = XRes.ok ast)
    (hz : evalAst fuel emptyVars emptyFns mode ast = Res.ok z) (hr : z.isReal) :
    evaluate fuel s mode = Res.ok z.re := by
  rw [evaluate, evaluateComplex, evaluateWithVars, evaluateWithVarsAndFns, hp]
  dsimp only
  rw [hz]
  simp only [Res.bind]
  rw [Cx.toCalcResult, if_pos hr]

/-- C1 (amended) prefix minus on a PRIMARY expression: when `s` tokenizes
to `ts` and `ts` parses completely as a single primary, prefixing `-`
parses as one `UnaryNeg` of that primary, and whenever both sides evaluate
to real results they are negatives of each other.  (The unrestricted claim
is false: prefix minus binds looser than `+`, see the counterexample.) -/
theorem C1_prefix_minus_primary (s : String) (mode : AngleMode) (fuel : Nat)
    (ts : List Token) (ast : Ast) (x y : ℝ)
    (htok : tokenize s = XRes.ok ts)
    (hprim : ∀ f, 16 * ts.length + 1 ≤ f → parsePrimary f ts = PRes.ok ast [])
    (hm : evaluate fuel ("-" ++ s) mode = Res.ok x)
    (hs : evaluate fuel s mode = Res.ok y) :
    x = -y := by
  obtain ⟨hps, hpm⟩ := parseStr_minus htok hprim
  have hneg : evalAst fuel emptyVars emptyFns mode (Ast.unaryNeg ast) =
      Res.bind (evalAst fuel emptyVars emptyFns mode ast) (fun v => Res.ok v.neg) := by
    simp only [evalAst]
  rw [evaluate, evaluateComplex, evaluateWithVars, evaluateWithVarsAndFns, hps] at hs
  rw [evaluate, evaluateComplex, evaluateWithVars, evaluateWithVarsAndFns, hpm] at hm
  dsimp only at hs hm
  rw [hneg] at hm
  cases hz : evalAst fuel emptyVars emptyFns mode ast with
  | err e =>
    rw [hz] at hs
    simp [Res.bind] at hs
  | div =>
    rw [hz] at hs
    simp [Res.bind] at hs
  | ok z =>
    rw [hz] at hs hm
    simp only [Res.bind] at hs hm
    by_cases hr : z.isReal
    · rw [Cx.toCalcResult, if_pos hr] at hs
      rw [Cx.toCalcResult, if_pos (neg_isReal hr)] at hm
      dsimp only at hs hm
      cases hs
      cases hm
      rfl
    · rw [Cx.toCalcResult, if_neg hr] at hs
      dsimp only at hs
      cases hs

/-- C1 witness: `s = "2"` is a primary; `evaluate("-2") = -2 = -evaluate("2")`. -/
theorem C1_prefix_minus_primary_witness :
    evaluate 0 ("-2") AngleMode.rad = Res.ok (-2) ∧
    evaluate 0 ("2") AngleMode.rad = Res.ok 2 ∧
    (-2 : ℝ) = -(2 : ℝ) := by
  have htok : tokenize ("2") = XRes.ok [Token.number ⟨2, 0⟩] := rfl
  have hprim : ∀ f, 16 * ([Token.number ⟨2, 0⟩] : List Token).length + 1 ≤ f →
      parsePrimary f [Token.number ⟨2, 0⟩] = PRes.ok (Ast.number ⟨2, 0⟩) [] := by
    intro f hf
    obtain ⟨k, rfl⟩ : ∃ k, f = k + 1 := ⟨f - 1, by omega⟩
    rfl
  have hs : evaluate 0 ("2") AngleMode.rad = Res.ok 2 := by
    have hev : evalAst 0 emptyVars emptyFns AngleMode.rad (Ast.number ⟨2, 0⟩) =
        Res.ok (Cx.real 2) := by
      simp only [evalAst]
      norm_num [NumLit.toReal]
    have := evaluate_of_ast (show parseStr ("2") = XRes.ok (Ast.number ⟨2, 0⟩) from rfl)
      hev (by simp [Cx.isReal, Cx.real]; norm_num)
    simpa [Cx.real] using this
  have hm : evaluate 0 ("-2") AngleMode.rad = Res.ok (-2) := by
    have hast : parseStr ("-2") = XRes.ok (Ast.unaryNeg (Ast.number ⟨2, 0⟩)) := rfl
    have hev : evalAst 0 emptyVars emptyFns AngleMode.rad
        (Ast.unaryNeg (Ast.number ⟨2, 0⟩)) = Res.ok (Cx.neg (Cx.real 2)) := by
      simp only [evalAst, Res.bind]
      norm_num [NumLit.toReal]
    have := evaluate_of_ast hast hev
      (neg_isReal (by simp [Cx.isReal, Cx.real]; norm_num))
    simpa [Cx.neg, Cx.real] using this
  exact ⟨hm, hs,
    C1_prefix_minus_primary ("2") AngleMode.rad 0 [Token.number ⟨2, 0⟩]
      (Ast.number ⟨2, 0⟩) (-2) 2 htok hprim hm hs⟩

/-- C1 counterexample to the original wording: `evaluate("-1+2") = 1` but
`-evaluate("1+2") = -3` — prefix minus negates only the first addend. -/
theorem C1_counterexample :
    evaluate 0 ("-1+2") AngleMode.rad = Res.ok 1 ∧
    evaluate 0 ("1+2") AngleMode.rad = Res.ok 3 ∧
    ¬ ((1 : ℝ) = -3) := by
  refine ⟨?_, ?_, by norm_num⟩
  · have hast : parseStr ("-1+2") = XRes.ok (Ast.binOp BinOp.add
        (Ast.unaryNeg (Ast.number ⟨1, 0⟩)) (Ast.number ⟨2, 0⟩)) := rfl
    have hev : evalAst 0 emptyVars emptyFns AngleMode.rad (Ast.binOp BinOp.add
        (Ast.unaryNeg (Ast.number ⟨1, 0⟩)) (Ast.number ⟨2, 0⟩)) = Res.ok ⟨1, 0⟩ := by
      simp only [evalAst, Res.bind, Res.ofX, binArith]
      norm_num [NumLit.toReal, Cx.add, Cx.neg, Cx.real]
    have := evaluate_of_ast hast hev (by simp [Cx.isReal]; norm_num)
    simpa using this
  · have hast : parseStr ("1+2") = XRes.ok (Ast.binOp BinOp.add
        (Ast.number ⟨1, 0⟩) (Ast.number ⟨2, 0⟩)) := rfl
    have hev : evalAst 0 emptyVars emptyFns AngleMode.rad (Ast.binOp BinOp.add
        (Ast.number ⟨1, 0⟩) (Ast.number ⟨2, 0⟩)) = Res.ok ⟨3, 0⟩ := by
      simp only [evalAst, Res.bind, Res.ofX, binArith]
      norm_num [NumLit.toReal, Cx.add, Cx.real]
    have := evaluate_of_ast hast hev (by simp [Cx.isReal]; norm_num)
    simpa using this
